import Mathlib

/-!
Verification of the batch download orchestration core of `src/app2.py`
(SpeiiKhiev Video Downloader).

Modelling conventions: Python strings are `List Char` (`Str`), machine
integers are `Nat`/`Int`, durations and megabyte counts are `ℚ`.
External collaborators (the filesystem, yt-dlp, instaloader) are modelled
as explicit environments that supply their observable results; an
exception raised by a collaborator is an explicit variant of the result
type.  All definitions are executable.
-/

abbrev Str := List Char

/-! ## SecurityUtils (src/app2.py lines 112-164) -/

/-- Model of Python `s.replace('..', '')` as used in
`SecurityUtils.sanitize_filename` (line 137): remove the non-overlapping
occurrences of `".."`, scanning left to right. -/
def replaceDotDot : Str → Str
  | [] => []
  | [c] => [c]
  | c1 :: c2 :: rest =>
    if c1 = '.' ∧ c2 = '.' then replaceDotDot rest
    else c1 :: replaceDotDot (c2 :: rest)

/-- Model of the Python substring test `'..' in s`: does `s` contain two
adjacent dots? -/
def hasDD : Str → Bool
  | [] => false
  | [_] => false
  | c1 :: c2 :: rest => ((c1 == '.') && (c2 == '.')) || hasDD (c2 :: rest)

/-- The character whitelist of `sanitize_filename` (line 138):
`"-_.() " + string.ascii_letters + string.digits`. -/
def validChar (c : Char) : Bool :=
  c.isAlpha || c.isDigit || c == '-' || c == '_' || c == '.' ||
    c == '(' || c == ')' || c == ' '

/-- The per-character substitution of line 139: keep whitelisted
characters, replace everything else by `'_'`. -/
def sanitizeChar (c : Char) : Char :=
  if validChar c then c else '_'

/-- Characters stripped from both ends by `sanitized.strip('. ')` (line 140). -/
def isDotSpace (c : Char) : Bool := c == '.' || c == ' '

/-- Model of Python `s.strip('. ')` (line 140). -/
def stripDotSpace (l : Str) : Str :=
  ((l.dropWhile isDotSpace).reverse.dropWhile isDotSpace).reverse

/-- Model of `os.path.basename` (line 141) on POSIX: the part after the
last `'/'`. -/
def basename (l : Str) : Str :=
  (l.reverse.takeWhile (fun c => c != '/')).reverse

/-- Model of `os.path.dirname` on POSIX: the part before the last `'/'`,
with trailing slashes stripped unless the result is all slashes. -/
def dirname (p : Str) : Str :=
  let head := (p.reverse.dropWhile (fun c => c != '/')).reverse
  if head ≠ [] ∧ ¬ (head.all (fun c => c == '/')) then
    (head.reverse.dropWhile (fun c => c == '/')).reverse
  else head

/-- `SecurityUtils.sanitize_filename` (lines 131-146), step for step:
empty-input fallback, removal of `".."`, `'/'`, `'\'`, whitelist
substitution, `strip('. ')`, `os.path.basename`, truncation to 100
characters, empty-result fallback. -/
def sanitize_filename (filename : Str) : Str :=
  if filename = [] then "video".toList
  else
    let f1 := replaceDotDot filename
    let f2 := (f1.filter (fun c => c != '/')).filter (fun c => c != '\\')
    let s1 := f2.map sanitizeChar
    let s2 := stripDotSpace s1
    let s3 := basename s2
    let s4 := if s3.length > 100 then s3.take 100 else s3
    if s4 = [] then "video".toList else s4

/-- Characters allowed in a URL scheme by `urllib.parse` (letters, digits,
`'+'`, `'-'`, `'.'`). -/
def schemeChar (c : Char) : Bool :=
  c.isAlpha || c.isDigit || c == '+' || c == '-' || c == '.'

/-- Model of the scheme-splitting step of `urllib.parse.urlparse`: if the
text before the first `':'` is a nonempty run of scheme characters
starting with a letter, it is the (lowercased) scheme and the remainder
follows the colon; otherwise the scheme is empty. -/
def splitScheme (url : Str) : Str × Str :=
  let pre := url.takeWhile (fun c => c != ':')
  if pre.length < url.length ∧ pre ≠ [] ∧ (pre.headD 'a').isAlpha ∧
      pre.all schemeChar then
    (pre.map Char.toLower, url.drop (pre.length + 1))
  else ([], url)

/-- Model of the netloc extraction of `urllib.parse.urlparse`: after the
scheme, a netloc is present exactly when the remainder starts with `"//"`,
and extends to the next `'/'`, `'?'` or `'#'`. -/
def netlocOf (rest : Str) : Str :=
  if "//".toList.isPrefixOf rest then
    (rest.drop 2).takeWhile (fun c => c != '/' && c != '?' && c != '#')
  else []

/-- `SecurityUtils.is_valid_url` (lines 115-129): scheme must be `http` or
`https`, netloc nonempty, no `".."` anywhere in the URL, and at most 10
`'/'` characters. -/
def is_valid_url (url : Str) : Bool :=
  let sr := splitScheme url
  if ¬ (sr.1 = "http".toList ∨ sr.1 = "https".toList) then false
  else if netlocOf sr.2 = [] then false
  else if hasDD url then false
  else if url.countP (fun c => c == '/') > 10 then false
  else true

/-- `SecurityUtils.check_disk_space` (lines 155-164).  The filesystem
answer is an environment input: `some b` models `shutil.disk_usage`
reporting `b` free bytes, `none` models the query raising.  Returns
`(free_mb > required_mb, free_mb)` on success and `(true, 0)` on failure. -/
def check_disk_space (freeBytes : Option Nat) (required_mb : ℚ) : Bool × ℚ :=
  match freeBytes with
  | some b => (decide (((b : ℚ) / (1024 * 1024)) > required_mb), (b : ℚ) / (1024 * 1024))
  | none => (true, 0)

/-! ## Data model: VideoRecord and Platform -/

/-- A video record, as built by both collectors (the dicts of lines
394-402, 508-516, 594-602): `id`, `title`, `url`, `thumbnail`, `duration`,
`view_count`, `like_count`. -/
structure Video where
  id : Str
  title : Str
  url : Str
  thumbnail : Str
  duration : Int
  view_count : Int
  like_count : Int
deriving DecidableEq, Repr

/-- Model of the Python substring test `pat in s` for general patterns
(`'..' in s` has its own dedicated model `hasDD`). -/
def strContains (pat : Str) : Str → Bool
  | [] => pat.isEmpty
  | c :: rest => pat.isPrefixOf (c :: rest) || strContains pat rest

/-- The platform tags returned by `detect_platform` (lines 334-344). -/
inductive Platform where
  | tiktok | youtube | instagram | facebook | unknown
deriving DecidableEq, Repr

/-- `ProfileFetchThread.detect_platform` (lines 334-344): case-insensitive
substring match, first hit wins. -/
def detect_platform (url : Str) : Platform :=
  let u := url.map Char.toLower
  if strContains "tiktok.com".toList u then .tiktok
  else if strContains "youtube.com".toList u || strContains "youtu.be".toList u then .youtube
  else if strContains "instagram.com".toList u then .instagram
  else if strContains "facebook.com".toList u || strContains "fb.com".toList u then .facebook
  else .unknown

/-- Suffix of `l` after the first occurrence of `pat`, if any. -/
def afterFirst (pat : Str) : Str → Option Str
  | [] => none
  | c :: rest =>
    if pat.isPrefixOf (c :: rest) then some ((c :: rest).drop pat.length)
    else afterFirst pat rest

/-- `ProfileFetchThread.extract_instagram_username` (lines 346-357): the
regex `instagram\.com/([^/\?]+)` read at the first occurrence of
`"instagram.com/"` (the captured group is the run of characters other than
`'/'` and `'?'`), falling back to the `@`-variant pattern; the trailing
`split('?')`/`strip('/')` steps are subsumed because the captured group
already excludes those characters. -/
def extract_instagram_username (url : Str) : Option Str :=
  match afterFirst "instagram.com/".toList url with
  | some suf =>
    let uname := suf.takeWhile (fun c => c != '/' && c != '?')
    if uname ≠ [] then some uname
    else
      match afterFirst "instagram.com/@".toList url with
      | some suf2 =>
        let u2 := suf2.takeWhile (fun c => c != '/' && c != '?')
        if u2 ≠ [] then some u2 else none
      | none => none
  | none => none

/-! ## ProfileFetchThread (lines 320-532) -/

/-- An instaloader post as consumed by
`scrape_instagram_with_instaloader` (lines 383-408): `shortcode`,
optional `caption`, `is_video`, thumbnail `url`, optional
`video_duration` / `video_view_count` (the `hasattr` checks), `likes`. -/
structure Post where
  shortcode : Str
  caption : Option Str
  is_video : Bool
  url : Str
  video_duration : Option Int
  video_view_count : Option Int
  likes : Int
deriving DecidableEq, Repr

/-- A flat yt-dlp playlist entry as consumed by the generic branch of
`ProfileFetchThread.run` (lines 493-517).  `none` for a field models the
key being absent from the dict (so `entry.get(k, d)` yields `d`); `some`
models the key being present with that value, possibly empty. -/
structure YEntry where
  id : Option Str
  title : Option Str
  url : Option Str
  webpage_url : Option Str
  thumbnail : Option Str
  duration : Option Int
  view_count : Option Int
  like_count : Option Int
deriving DecidableEq, Repr

/-- The URL of an Instagram post built at line 392:
`f"https://www.instagram.com/p/{post.shortcode}/"`. -/
def instaPostUrl (shortcode : Str) : Str :=
  "https://www.instagram.com/p/".toList ++ shortcode ++ "/".toList

/-- The record built from an instaloader post (lines 394-402). -/
def mkVideoInsta (p : Post) : Video where
  id := p.shortcode
  title :=
    match p.caption with
    | some c => if c ≠ [] then c.take 100 else "Untitled".toList
    | none => "Untitled".toList
  url := instaPostUrl p.shortcode
  thumbnail := p.url
  duration := p.video_duration.getD 0
  view_count := p.video_view_count.getD 0
  like_count := p.likes

/-- Line 500: `entry.get('url') or entry.get('webpage_url', '')`. -/
def effUrl (e : YEntry) : Str :=
  match e.url with
  | some u => if u ≠ [] then u else e.webpage_url.getD []
  | none => e.webpage_url.getD []

/-- Decimal digits of a natural number. -/
def natDigits (n : Nat) : Str := Nat.toDigits 10 n

/-- The record built from a flat yt-dlp entry (lines 497-516), including
the URL reconstruction from the id for TikTok and YouTube when the entry
URL does not start with `"http"`.  `idx` is the 0-based `enumerate`
index. -/
def mkVideoY (platform : Platform) (idx : Nat) (e : YEntry) : Video :=
  let video_id := e.id.getD ("video_".toList ++ natDigits idx)
  let title := e.title.getD "Untitled".toList
  let u0 := effUrl e
  let u1 :=
    if ¬ ("http".toList.isPrefixOf u0) then
      if platform = .tiktok then
        "https://www.tiktok.com/@user/video/".toList ++ video_id
      else if platform = .youtube then
        "https://www.youtube.com/watch?v=".toList ++ video_id
      else u0
    else u0
  { id := video_id
    title := title.take 100
    url := u1
    thumbnail := e.thumbnail.getD []
    duration := e.duration.getD 0
    view_count := e.view_count.getD 0
    like_count := e.like_count.getD 0 }

/-- The post loop of `scrape_instagram_with_instaloader` (lines 383-410):
the counter caps the number of posts examined (incremented for every post,
video or not), and only video posts yield records. -/
def scrapeAux (maxv : Nat) : List Post → Nat → List Video
  | [], _ => []
  | p :: rest, count =>
    if count ≥ maxv then []
    else
      let tailv := scrapeAux maxv rest (count + 1)
      if p.is_video then mkVideoInsta p :: tailv else tailv

/-- `scrape_instagram_with_instaloader` with the run flag always up. -/
def scrape_instagram_with_instaloader (maxv : Nat) (posts : List Post) : List Video :=
  scrapeAux maxv posts 0

/-- The entry loop of the generic branch (lines 493-517); `none` entries
model falsy entries, which are skipped by `if entry:`. -/
def pfEntriesAux (platform : Platform) : List (Option YEntry) → Nat → List Video
  | [], _ => []
  | some e :: rest, idx => mkVideoY platform idx e :: pfEntriesAux platform rest (idx + 1)
  | none :: rest, idx => pfEntriesAux platform rest (idx + 1)

/-- Environment of `ProfileFetchThread.run`: whether `import instaloader`
succeeds; the result of `Profile.from_username` + `get_posts` (`Except`
carries the exception text); the result of `ydl.extract_info`, where
`none` models a falsy `info` and `some entries` models
`info.get('entries', [])`. -/
structure PFEnv where
  instaAvailable : Bool
  instaResult : Except Str (List Post)
  ydlInfo : Option (List (Option YEntry))

/-- `ProfileFetchThread.run` (lines 415-532), with the cancellation flag
always up, reduced to its observable outcome `(success, videos)`; status
text and progress events of this thread are not modelled (no claim
mentions them).  Exception classification of the Instagram branch
(private / rate-limited) only varies the message, so errors collapse to
`(false, [])`. -/
def pfRun (env : PFEnv) (url : Str) (maxv : Nat) : Bool × List Video :=
  let platform := detect_platform url
  if platform = .instagram then
    if env.instaAvailable then
      match extract_instagram_username url with
      | none => (false, [])
      | some _ =>
        match env.instaResult with
        | .error _ => (false, [])
        | .ok posts =>
          let videos := scrape_instagram_with_instaloader maxv posts
          if videos ≠ [] then (true, videos) else (false, [])
    else (false, [])
  else
    match env.ydlInfo with
    | none => (false, [])
    | some entries =>
      if entries = [] then (false, [])
      else
        let videos := pfEntriesAux platform entries 0
        if videos ≠ [] then (true, videos) else (false, [])

/-! ## VideoInfoThread (lines 535-618) -/

/-- A yt-dlp info dict as consumed by `VideoInfoThread.run` (lines
572-602).  `none` models an absent key, `some` a present value (possibly
the empty string). -/
structure Info where
  id : Option Str
  display_id : Option Str
  title : Option Str
  description : Option Str
  uploader : Option Str
  channel : Option Str
  upload_date : Option Str
  thumbnail : Option Str
  duration : Option Int
  view_count : Option Int
  like_count : Option Int
deriving DecidableEq, Repr

/-- Result of `ydl.extract_info` for one URL: an exception (`err`), a
falsy `info` (`noInfo`), or an info dict. -/
inductive FetchRes where
  | err
  | noInfo
  | ok (i : Info)
deriving DecidableEq

/-- Environment of `VideoInfoThread`: the metadata extractor. -/
structure VIEnv where
  fetchInfo : Str → FetchRes

/-- Observable events of `VideoInfoThread.run`: the `status_update`
emissions (lines 559, 563, 606) and the `progress` emissions (lines 564,
609). -/
inductive VIEv where
  | statusInvalid (idx : Nat)
  | statusExtracting (idx total : Nat)
  | statusFailed
  | progress (p : Nat)
deriving DecidableEq, Repr

/-- The record construction of lines 575-602: Instagram caption-derived
title, `"Untitled"`/empty fallback to `uploader_date` or
`uploader_video`, and the `id`-or-`display_id` choice of line 595 (the
Python `or` falls through on an *empty* present `id`, but a present empty
`display_id` is returned as is).  `idx` is the 1-based index. -/
def mkVideoInfo (idx : Nat) (url : Str) (info : Info) : Video :=
  let title0 := info.title.getD []
  let description := info.description.getD []
  let title1 :=
    if strContains "instagram.com".toList url then
      if description ≠ [] ∧ description ≠ title0 then
        let t := description.takeWhile (fun c => c != '\n')
        if t.length > 100 then t.take 100 else t
      else title0
    else title0
  let title2 :=
    if title1 = [] ∨ title1 = "Untitled".toList then
      let uploader := info.uploader.getD (info.channel.getD "unknown".toList)
      let upload_date := info.upload_date.getD []
      if upload_date ≠ [] then uploader ++ '_' :: upload_date
      else uploader ++ "_video".toList
    else title1
  let a := info.id.getD []
  { id := if a ≠ [] then a else info.display_id.getD ("video_".toList ++ natDigits idx)
    title := title2
    url := url
    thumbnail := info.thumbnail.getD []
    duration := info.duration.getD 0
    view_count := info.view_count.getD 0
    like_count := info.like_count.getD 0 }

/-- Fuel-driven floor of the base-2 logarithm. -/
def log2fuel : Nat → Nat → Nat
  | 0, _ => 0
  | fuel + 1, n => if 2 ≤ n then log2fuel fuel (n / 2) + 1 else 0

/-- Floor of the base-2 logarithm of a natural number (`0` for `0` and
`1`). -/
def natLog2 (n : Nat) : Nat := log2fuel n n

/-- The largest `e : ℤ` with `2 ^ e ≤ a / b`, for positive naturals `a`
and `b`.  A first guess from the integer logarithms of `a` and `b` is off
by at most one and is corrected by a single exact comparison. -/
def ratLog2 (a b : Nat) : Int :=
  let e0 : Int := (natLog2 a : Int) - (natLog2 b : Int)
  if 0 ≤ e0 then
    if b * 2 ^ e0.toNat ≤ a then e0 else e0 - 1
  else
    if b ≤ a * 2 ^ (- e0).toNat then e0 else e0 - 1

/-- Round the positive rational `a / b` to the nearest IEEE-754 binary64
value (round to nearest, ties to even; normal range), returned as a
mantissa-exponent pair `(m, e)` of numeric value `m * 2 ^ (e - 52)` with
`2 ^ 52 ≤ m ≤ 2 ^ 53`.  The significand `s = (a / b) * 2 ^ (52 - e)` is
rounded using its exact integer quotient and remainder. -/
def fl64pair (a b : Nat) : Nat × Int :=
  let e := ratLog2 a b
  let nn := a * 2 ^ (52 - e).toNat
  let dd := b * 2 ^ (e - 52).toNat
  let q0 := nn / dd
  let r := nn % dd
  let m :=
    if dd < 2 * r then q0 + 1
    else if 2 * r < dd then q0
    else if q0 % 2 = 0 then q0 else q0 + 1
  (m, e)

/-- The value `m * 2 ^ (e - 52)` of a mantissa-exponent pair as an exact
fraction of naturals (exactly one of the two powers is `≠ 1`). -/
def pairToFrac (p : Nat × Int) : Nat × Nat :=
  (p.1 * 2 ^ (p.2 - 52).toNat, 2 ^ (52 - p.2).toNat)

/-- Model of line 564's `int((idx / total) * 90)` as Python evaluates it:
`idx / total` is binary64 division (both operands exactly representable,
result correctly rounded), the product with `90` is again correctly
rounded binary64 multiplication, and `int` truncates toward zero.  Both
roundings are computed exactly over the integers via mantissa-exponent
pairs; the result can differ from the exact floor `90 * idx / total`
(e.g. `idx = 7`, `total = 10` gives `62`, not `63`).  The `idx = 0` /
`total = 0` guard is unreachable from `viRunAux` (the loop body implies
`1 ≤ idx ≤ total`). -/
def pyProgress (idx total : Nat) : Nat :=
  if idx = 0 ∨ total = 0 then 0
  else
    let f1 := pairToFrac (fl64pair idx total)
    let f2 := pairToFrac (fl64pair (90 * f1.1) f1.2)
    f2.1 / f2.2

/-- One iteration of the URL loop of `VideoInfoThread.run` (lines
553-607): validation gate, status and progress emission (progress is
`int((idx / total) * 90)` in double precision, modelled by
`pyProgress`), then extraction.  Returns the events and the produced
record, if any. -/
def viItem (env : VIEnv) (total idx : Nat) (url : Str) : List VIEv × Option Video :=
  if ¬ is_valid_url url then ([.statusInvalid idx], none)
  else
    let pevs := [VIEv.statusExtracting idx total, VIEv.progress (pyProgress idx total)]
    match env.fetchInfo url with
    | .err => (pevs ++ [.statusFailed], none)
    | .noInfo => (pevs, none)
    | .ok info => (pevs, some (mkVideoInfo idx url info))

/-- The URL loop of `VideoInfoThread.run`, 1-based index. -/
def viRunAux (env : VIEnv) (total : Nat) : List Str → Nat → List VIEv × List Video
  | [], _ => ([], [])
  | u :: rest, idx =>
    let step := viItem env total idx u
    let tail := viRunAux env total rest (idx + 1)
    (step.1 ++ tail.1, step.2.toList ++ tail.2)

/-- `VideoInfoThread.run` (lines 548-618) with the cancellation flag
always up: the event trace (ending in `progress 100`, line 609), the
`finished` success flag (line 611: success iff at least one record), and
the collected records. -/
def videoInfoRun (env : VIEnv) (urls : List Str) : List VIEv × Bool × List Video :=
  let r := viRunAux env urls.length urls 1
  (r.1 ++ [.progress 100], (r.2 ≠ [] : Bool), r.2)

/-- The progress values of a `VideoInfoThread` event trace, in order. -/
def progressOf (evs : List VIEv) : List Nat :=
  evs.filterMap (fun e => match e with | .progress p => some p | _ => none)

/-! ## DownloadThread (lines 621-723) -/

/-- Environment of `DownloadThread`: `resolve` models
`os.path.realpath(os.path.abspath ·)` — the filesystem-dependent
canonicalisation used by `SecurityUtils.sanitize_path` (lines 148-153);
`listdir` models `os.listdir(save_path)` (`none` = the call raises);
`download` models `ydl.download([url])` (`false` = it raises). -/
structure DlEnv where
  resolve : Str → Str
  listdir : Option (List Str)
  download : Str → Bool

/-- `SecurityUtils.sanitize_path` (lines 148-153): resolve to an
absolute, symlink-resolved path.  The resolution itself is the
environment's `resolve`. -/
def sanitize_path (env : DlEnv) (filepath : Str) : Str :=
  env.resolve filepath

/-- `DownloadThread.is_already_downloaded` (lines 637-644): scan the save
directory for a filename containing the id as a substring; any listing
failure is swallowed and yields `false`. -/
def is_already_downloaded (env : DlEnv) (video_id : Str) : Bool :=
  match env.listdir with
  | some files => files.any (fun f => strContains video_id f)
  | none => false

/-- The three `finished` message shapes of `DownloadThread.run`
(lines 674, 709, 716), each carrying the title truncated to 50
characters. -/
inductive Msg where
  | alreadyExists (t : Str)
  | downloaded (t : Str)
  | failed (t : Str)
deriving DecidableEq, Repr

/-- Whether a message is the skipped-as-duplicate one. -/
def Msg.isSkip : Msg → Bool
  | .alreadyExists _ => true
  | _ => false

/-- Observable events of `DownloadThread.run`: `finished` outcomes,
`status_update` lines, the `ydl.download` invocation with its resolved
output template, the rate-limit sleep, and the final aggregate
`status_update` with the success/failed counters (line 720). -/
inductive Ev where
  | outcome (success : Bool) (msg : Msg) (videoId : Str)
  | statusLine (idx total : Nat) (t : Str)
  | download (url : Str) (outtmpl : Str)
  | sleep (d : ℚ)
  | summary (success failed : Nat)
deriving DecidableEq, Repr

/-- Python `f'{idx:02d}'`: decimal, zero-padded to width 2. -/
def fmt02 (n : Nat) : Str :=
  let d := natDigits n
  if d.length < 2 then '0' :: d else d

/-- The filename derivation of lines 677-690 for the four
`filename_format` values, followed by the second sanitisation pass
(line 690).  `idx` is the 1-based index. -/
def deriveFilename (fmt : Nat) (idx : Nat) (v : Video) : Str :=
  let clean_title := sanitize_filename v.title
  let base :=
    if fmt = 0 then fmt02 idx ++ '_' :: clean_title
    else if fmt = 1 then (sanitize_filename v.id).take 30
    else if fmt = 2 then
      fmt02 idx ++ '_' :: clean_title ++ '_' :: (sanitize_filename v.id).take 10
    else clean_title
  sanitize_filename base

/-- Model of `os.path.join` on POSIX for the two-argument case of
line 694. -/
def osJoin (a b : Str) : Str :=
  if b.headD ' ' = '/' then b
  else if a = [] then b
  else if a.getLastD ' ' = '/' then a ++ b
  else a ++ '/' :: b

/-- Events of one loop iteration of `DownloadThread.run` (lines 667-717)
once the cancellation check has passed: dedup skip (lines 672-675), or
status line, filename derivation, path resolution, the download call and
its outcome (lines 677-716), and the rate-limit sleep (lines 711-712),
which only runs on the successful-download path (the dedup path
`continue`s first and the failure path jumps to `except`). -/
def dlItem (env : DlEnv) (savePath : Str) (fmt : Nat) (delay : ℚ) (total idx : Nat)
    (v : Video) : List Ev :=
  if is_already_downloaded env v.id then
    [.outcome true (.alreadyExists (v.title.take 50)) v.id]
  else
    let tmpl := sanitize_path env (osJoin savePath (deriveFilename fmt idx v ++ ".%(ext)s".toList))
    [Ev.statusLine idx total (v.title.take 50), Ev.download v.url tmpl] ++
      (if env.download v.url then
        [Ev.outcome true (.downloaded (v.title.take 50)) v.id] ++
          (if idx < total ∧ delay > 0 then [Ev.sleep delay] else [])
      else
        [Ev.outcome false (.failed (v.title.take 50)) v.id])

/-- Whether the iteration for `v` increments `success_count` (dedup skip
or successful download) rather than `failed_count`. -/
def itemOK (env : DlEnv) (v : Video) : Bool :=
  is_already_downloaded env v.id || env.download v.url

/-- The cooperative cancellation flag.  The flag reads of the run are
numbered from 0 (read `r` is the `if not self._is_running` check before
item `r + 1`; the last read guards the aggregate line).  `none` means the
flag is never lowered; `some c` means reads `≥ c` see it lowered — the
flag is lowered after item `c` completes and stays down. -/
def flagAt (cancelAt : Option Nat) (r : Nat) : Bool :=
  match cancelAt with
  | none => true
  | some c => decide (r < c)

/-- The item loop of `DownloadThread.run` (lines 663-717).  Arguments:
remaining records, 1-based index of the next record, the two counters.
Returns the events, the final counters, and the index of the next unread
flag check. -/
def dlRunAux (env : DlEnv) (savePath : Str) (fmt : Nat) (delay : ℚ) (total : Nat)
    (cancelAt : Option Nat) : List Video → Nat → Nat → Nat → List Ev × Nat × Nat × Nat
  | [], idx, s, f => ([], s, f, idx - 1)
  | v :: rest, idx, s, f =>
    if flagAt cancelAt (idx - 1) then
      let evs := dlItem env savePath fmt delay total idx v
      let r := dlRunAux env savePath fmt delay total cancelAt rest (idx + 1)
        (if itemOK env v then s + 1 else s) (if itemOK env v then f else f + 1)
      (evs ++ r.1, r.2)
    else ([], s, f, idx)

/-- `DownloadThread.run` (lines 657-723): the item loop followed by the
aggregate `status_update` (lines 719-720), which is emitted only if the
flag is still up at its own check. -/
def dlRun (env : DlEnv) (videos : List Video) (savePath : Str) (fmt : Nat) (delay : ℚ)
    (cancelAt : Option Nat) : List Ev :=
  let r := dlRunAux env savePath fmt delay videos.length cancelAt videos 1 0 0
  if flagAt cancelAt r.2.2.2 then r.1 ++ [.summary r.2.1 r.2.2.1] else r.1

/-- The `finished` outcomes of a trace, in order. -/
def outcomesOf (evs : List Ev) : List (Bool × Msg × Str) :=
  evs.filterMap (fun e => match e with | .outcome b m i => some (b, m, i) | _ => none)

/-- The URLs passed to `ydl.download`, in order. -/
def downloadUrlsOf (evs : List Ev) : List Str :=
  evs.filterMap (fun e => match e with | .download u _ => some u | _ => none)

/-- The number of rate-limit sleeps in a trace. -/
def sleepCount (evs : List Ev) : Nat :=
  (evs.filterMap (fun e => match e with | .sleep d => some d | _ => none)).length

/-- The number of aggregate summary lines in a trace. -/
def summaryCount (evs : List Ev) : Nat :=
  (evs.filterMap (fun e => match e with | .summary s f => some (s, f) | _ => none)).length

/-- The expected outcome of one item, as a function of the environment. -/
def itemOutcome (env : DlEnv) (v : Video) : Bool × Msg × Str :=
  if is_already_downloaded env v.id then (true, .alreadyExists (v.title.take 50), v.id)
  else if env.download v.url then (true, .downloaded (v.title.take 50), v.id)
  else (false, .failed (v.title.take 50), v.id)

/-- Whether the last character of a string is a dot. -/
def lastIsDot : Str → Bool
  | [] => false
  | [c] => c == '.'
  | _ :: c2 :: rest => lastIsDot (c2 :: rest)

/-- The invariant satisfied by every `sanitize_filename` output produced
without truncation: nonempty, whitelisted characters only, no `".."`, no
leading or trailing `'.'`/`' '`, at most 100 characters. -/
def goodName (y : Str) : Bool :=
  !(y.isEmpty) && y.all validChar && !(hasDD y) &&
    (match y.head? with | some c => !(isDotSpace c) | none => true) &&
    (match y.getLast? with | some c => !(isDotSpace c) | none => true) &&
    decide (y.length ≤ 100)

/-! ## Claim theorems about DownloadThread.run -/

/-- Concrete environment for C1: the save directory is `"/d"`, which
canonicalises to itself, but the derived output template
`"/d/f.%(ext)s"` canonicalises (e.g. through a symlink planted at that
name) to `"/e/f.%(ext)s"`, whose parent is `"/e"`. -/
def dlEnvSym : DlEnv where
  resolve := fun s => if s = "/d/f.%(ext)s".toList then "/e/f.%(ext)s".toList else s
  listdir := some []
  download := fun _ => true

/-- The record downloaded in the C1 scenario. -/
def videoSym : Video where
  id := "i1".toList
  title := "f".toList
  url := "https://a.com/v".toList
  thumbnail := []
  duration := 0
  view_count := 0
  like_count := 0

/-- Concrete environment for the C3 witness: the save directory holds
`"07_MyClip_ab12.mp4"` and the record id is `"ab12"`. -/
def dlEnvC3 : DlEnv where
  resolve := id
  listdir := some ["07_MyClip_ab12.mp4".toList]
  download := fun _ => true

/-- The record skipped in the C3 witness. -/
def videoC3 : Video where
  id := "ab12".toList
  title := "MyClip".toList
  url := "https://a.com/c".toList
  thumbnail := []
  duration := 0
  view_count := 0
  like_count := 0

/-- Environment for the C4 witness: no duplicates, every download
succeeds. -/
def dlEnvPlain : DlEnv where
  resolve := id
  listdir := some []
  download := fun _ => true

/-- Records for the C4 witness. -/
def videoA : Video := ⟨"a1".toList, "A".toList, "https://a.com/1".toList, [], 0, 0, 0⟩

/-- Records for the C4 witness. -/
def videoB : Video := ⟨"b2".toList, "B".toList, "https://a.com/2".toList, [], 0, 0, 0⟩

/-- Records for the C4 witness. -/
def videoC : Video := ⟨"c3".toList, "C".toList, "https://a.com/3".toList, [], 0, 0, 0⟩

/-- Environment for the C7 counterexample: the first record is already in
the save directory, the second downloads fine. -/
def dlEnvDup : DlEnv where
  resolve := id
  listdir := some ["01_old_ab12.mp4".toList]
  download := fun _ => true

/-- The duplicate record of the C7 counterexample. -/
def videoDup : Video := ⟨"ab12".toList, "MyClip".toList, "https://a.com/1".toList, [], 0, 0, 0⟩

/-- The fresh record of the C7 counterexample. -/
def videoNext : Video := ⟨"zz99".toList, "Other".toList, "https://a.com/2".toList, [], 0, 0, 0⟩

/-- Environment for the C10 witness: the directory listing raises. -/
def dlEnvNoList : DlEnv where
  resolve := id
  listdir := none
  download := fun _ => true

/-- The record of the C10 witness. -/
def videoC10 : Video := ⟨"n1".toList, "N".toList, "https://a.com/n".toList, [], 0, 0, 0⟩

/-- Extractor environment whose every fetch raises. -/
def viEnvErr : VIEnv := ⟨fun _ => .err⟩

/-- Seven valid URLs for the C9 counterexample. -/
def urls7 : List Str :=
  ["https://a.com/1".toList, "https://a.com/2".toList, "https://a.com/3".toList,
   "https://a.com/4".toList, "https://a.com/5".toList, "https://a.com/6".toList,
   "https://a.com/7".toList]

/-- The goodness condition on an instaloader post under which the spec's
record invariant holds: a nonempty shortcode whose post URL passes the
validator. -/
def goodPostB (p : Post) : Bool :=
  !(p.shortcode.isEmpty) && is_valid_url (instaPostUrl p.shortcode)

/-- The goodness condition on a flat yt-dlp entry under which the spec's
record invariant holds: `id` and `title`, when present, are nonempty, and
the entry carries an `http`-prefixed URL that passes the validator. -/
def goodEntryB (e : YEntry) : Bool :=
  (match e.id with | some s => !(s.isEmpty) | none => true) &&
    (match e.title with | some s => !(s.isEmpty) | none => true) &&
    ("http".toList.isPrefixOf (effUrl e)) && is_valid_url (effUrl e)

/-- Goodness of a whole `ProfileFetchThread` environment. -/
def goodPFEnv (env : PFEnv) : Bool :=
  (match env.instaResult with
   | .ok posts => posts.all goodPostB
   | .error _ => true) &&
    (match env.ydlInfo with
     | some entries =>
       entries.all (fun e? => match e? with | some e => goodEntryB e | none => true)
     | none => true)

/-- The yt-dlp entry of the C6 counterexample: its `title` key is present
but empty. -/
def yEntryEmptyTitle : YEntry where
  id := some "abc".toList
  title := some []
  url := some "https://www.youtube.com/watch?v=abc".toList
  webpage_url := none
  thumbnail := none
  duration := none
  view_count := none
  like_count := none

/-- Environment of the C6 counterexample. -/
def pfEnvEmptyTitle : PFEnv where
  instaAvailable := false
  instaResult := .error []
  ydlInfo := some [some yEntryEmptyTitle]

/-- The well-formed yt-dlp entry of the C6 witness. -/
def yEntryGood : YEntry where
  id := some "abc".toList
  title := some "T".toList
  url := some "https://www.youtube.com/watch?v=abc".toList
  webpage_url := none
  thumbnail := none
  duration := none
  view_count := none
  like_count := none

/-- Environment of the C6 witness. -/
def pfEnvGood : PFEnv where
  instaAvailable := false
  instaResult := .error []
  ydlInfo := some [some yEntryGood]

/-! ## Lemmas about sanitize_filename (claim C5) -/

lemma replaceDotDot_length : ∀ l : Str, (replaceDotDot l).length ≤ l.length := by
  intro l
  induction l using replaceDotDot.induct with
  | case1 => simp [replaceDotDot]
  | case2 c => simp [replaceDotDot]
  | case3 c1 c2 rest h ih => simp [replaceDotDot, h]; omega
  | case4 c1 c2 rest h ih => simp [replaceDotDot, h] at ih ⊢; omega

lemma replaceDotDot_mem {c : Char} : ∀ {l : Str}, c ∈ replaceDotDot l → c ∈ l := by
  intro l
  induction l using replaceDotDot.induct with
  | case1 => simp [replaceDotDot]
  | case2 d => simp [replaceDotDot]
  | case3 c1 c2 rest h ih =>
    intro hm
    rw [replaceDotDot, if_pos h] at hm
    exact List.mem_cons_of_mem _ (List.mem_cons_of_mem _ (ih hm))
  | case4 c1 c2 rest h ih =>
    intro hm
    rw [replaceDotDot, if_neg h] at hm
    rcases List.mem_cons.mp hm with h1 | h2
    · exact List.mem_cons.mpr (Or.inl h1)
    · exact List.mem_cons_of_mem _ (ih h2)

lemma hasDD_cons (a : Char) (l : Str) :
    hasDD (a :: l) = (((a == '.') && (l.headD 'x' == '.')) || hasDD l) := by
  cases l <;> simp [hasDD]

lemma replaceDotDot_headD {c : Char} (h : ¬ c = '.') (t : Str) :
    (replaceDotDot (c :: t)).headD 'x' = c := by
  cases t with
  | nil => simp [replaceDotDot]
  | cons b r =>
    rw [replaceDotDot, if_neg (fun hc => h hc.1)]
    simp

lemma replaceDotDot_hasDD : ∀ l : Str, hasDD (replaceDotDot l) = false := by
  intro l
  induction l using replaceDotDot.induct with
  | case1 => simp [replaceDotDot, hasDD]
  | case2 c => simp [replaceDotDot, hasDD]
  | case3 c1 c2 rest h ih => rw [replaceDotDot, if_pos h]; exact ih
  | case4 c1 c2 rest h ih =>
    rw [replaceDotDot, if_neg h, hasDD_cons, ih]
    by_cases h2 : c2 = '.'
    · have h1 : ¬ c1 = '.' := fun hc => h ⟨hc, h2⟩
      simp [h1]
    · rw [replaceDotDot_headD h2]
      simp [h2]

lemma replaceDotDot_of_hasDD_eq_false : ∀ {l : Str}, hasDD l = false → replaceDotDot l = l := by
  intro l
  induction l using replaceDotDot.induct with
  | case1 => intro _; rfl
  | case2 c => intro _; rfl
  | case3 c1 c2 rest h ih =>
    intro hdd
    exfalso
    rw [hasDD] at hdd
    simp [h.1, h.2] at hdd
  | case4 c1 c2 rest h ih =>
    intro hdd
    rw [hasDD] at hdd
    rw [replaceDotDot, if_neg h, ih (Bool.or_eq_false_iff.mp hdd).2]

lemma hasDD_tail {a : Char} {l : Str} (h : hasDD (a :: l) = false) : hasDD l = false := by
  rw [hasDD_cons] at h
  exact (Bool.or_eq_false_iff.mp h).2

lemma hasDD_dropWhile (p : Char → Bool) : ∀ {l : Str}, hasDD l = false →
    hasDD (l.dropWhile p) = false := by
  intro l
  induction l with
  | nil => intro h; exact h
  | cons c t ih =>
    intro hdd
    rw [List.dropWhile_cons]
    by_cases hp : p c = true
    · rw [if_pos hp]
      exact ih (hasDD_tail hdd)
    · rw [if_neg hp]
      exact hdd

lemma lastIsDot_concat (c : Char) : ∀ l : Str, lastIsDot (l ++ [c]) = (c == '.') := by
  intro l
  induction l with
  | nil => simp [lastIsDot]
  | cons a t ih =>
    cases t with
    | nil => simp [lastIsDot]
    | cons b t2 =>
      rw [List.cons_append]
      rw [show lastIsDot (a :: (b :: t2 ++ [c])) = lastIsDot (b :: t2 ++ [c]) from rfl]
      exact ih

lemma lastIsDot_reverse : ∀ l : Str, lastIsDot l.reverse = (l.headD 'x' == '.') := by
  intro l
  cases l with
  | nil => simp [lastIsDot]
  | cons a t => rw [List.reverse_cons, lastIsDot_concat]; rfl

lemma hasDD_concat (c : Char) : ∀ l : Str,
    hasDD (l ++ [c]) = (hasDD l || (lastIsDot l && (c == '.'))) := by
  intro l
  induction l using hasDD.induct with
  | case1 => simp [hasDD, lastIsDot]
  | case2 a => simp [hasDD, lastIsDot]
  | case3 a b t ih =>
    rw [List.cons_append, List.cons_append]
    rw [show hasDD (a :: b :: (t ++ [c])) = (((a == '.') && (b == '.')) || hasDD (b :: (t ++ [c]))) from rfl]
    rw [show (b :: (t ++ [c])) = ((b :: t) ++ [c]) from rfl, ih]
    rw [show hasDD (a :: b :: t) = (((a == '.') && (b == '.')) || hasDD (b :: t)) from rfl]
    rw [show lastIsDot (a :: b :: t) = lastIsDot (b :: t) from rfl]
    cases (a == '.') && (b == '.') <;> simp

lemma hasDD_reverse : ∀ l : Str, hasDD l.reverse = hasDD l := by
  intro l
  induction l with
  | nil => rfl
  | cons c t ih =>
    rw [List.reverse_cons, hasDD_concat, ih, lastIsDot_reverse, hasDD_cons]
    cases hasDD t <;> cases hc : (c == '.') <;> cases hh : (t.headD 'x' == '.') <;> simp [hc, hh]

lemma hasDD_stripDotSpace {l : Str} (h : hasDD l = false) :
    hasDD (stripDotSpace l) = false := by
  unfold stripDotSpace
  rw [hasDD_reverse]
  apply hasDD_dropWhile
  rw [hasDD_reverse]
  exact hasDD_dropWhile _ h

lemma mem_dropWhile {c : Char} (p : Char → Bool) : ∀ {l : Str}, c ∈ l.dropWhile p → c ∈ l := by
  intro l
  induction l with
  | nil => simp [List.dropWhile]
  | cons a t ih =>
    rw [List.dropWhile_cons]
    by_cases hp : p a = true
    · rw [if_pos hp]
      intro h
      exact List.mem_cons_of_mem _ (ih h)
    · rw [if_neg hp]
      exact id

lemma mem_takeWhile {c : Char} (p : Char → Bool) : ∀ {l : Str}, c ∈ l.takeWhile p → c ∈ l := by
  intro l
  induction l with
  | nil => simp [List.takeWhile]
  | cons a t ih =>
    rw [List.takeWhile_cons]
    by_cases hp : p a = true
    · rw [if_pos hp]
      intro h
      rcases List.mem_cons.mp h with h1 | h2
      · exact List.mem_cons.mpr (Or.inl h1)
      · exact List.mem_cons_of_mem _ (ih h2)
    · rw [if_neg hp]
      simp

lemma mem_stripDotSpace {c : Char} {l : Str} (h : c ∈ stripDotSpace l) : c ∈ l := by
  unfold stripDotSpace at h
  rw [List.mem_reverse] at h
  have h2 := mem_dropWhile _ h
  rw [List.mem_reverse] at h2
  exact mem_dropWhile _ h2

lemma mem_basename {c : Char} {l : Str} (h : c ∈ basename l) : c ∈ l := by
  unfold basename at h
  rw [List.mem_reverse] at h
  have h2 := mem_takeWhile _ h
  rwa [List.mem_reverse] at h2

lemma validChar_dot : validChar '.' = true := by decide

lemma validChar_slash : validChar '/' = false := by decide

lemma validChar_backslash : validChar '\\' = false := by decide

lemma sanitizeChar_eq_dot (c : Char) : (sanitizeChar c == '.') = (c == '.') := by
  unfold sanitizeChar
  by_cases hv : validChar c = true
  · rw [if_pos hv]
  · rw [if_neg hv]
    have hc : ¬ c = '.' := fun h => hv (h ▸ validChar_dot)
    have : (c == '.') = false := by exact beq_eq_false_iff_ne.mpr hc
    rw [this]
    decide

lemma hasDD_map_sanitizeChar : ∀ {l : Str}, hasDD l = false →
    hasDD (l.map sanitizeChar) = false := by
  intro l
  induction l using hasDD.induct with
  | case1 => intro _; rfl
  | case2 a => intro _; rfl
  | case3 a b t ih =>
    intro h
    rw [hasDD] at h
    rcases Bool.or_eq_false_iff.mp h with ⟨h1, h2⟩
    rw [List.map_cons, List.map_cons]
    rw [show hasDD (sanitizeChar a :: sanitizeChar b :: List.map sanitizeChar t)
      = (((sanitizeChar a == '.') && (sanitizeChar b == '.'))
          || hasDD (sanitizeChar b :: List.map sanitizeChar t)) from rfl]
    rw [sanitizeChar_eq_dot, sanitizeChar_eq_dot, h1]
    have := ih h2
    rw [List.map_cons] at this
    rw [this]
    rfl

lemma mem_map_sanitizeChar {c : Char} {l : Str} (h : c ∈ l.map sanitizeChar) :
    validChar c = true := by
  rcases List.mem_map.mp h with ⟨a, _, ha⟩
  subst ha
  unfold sanitizeChar
  by_cases hv : validChar a = true
  · rwa [if_pos hv]
  · rw [if_neg hv]; decide

lemma map_sanitizeChar_eq_self {l : Str} (h : ∀ c ∈ l, validChar c = true) :
    l.map sanitizeChar = l := by
  induction l with
  | nil => rfl
  | cons a t ih =>
    rw [List.map_cons]
    rw [show sanitizeChar a = a from by unfold sanitizeChar; rw [if_pos (h a (List.mem_cons_self a t))]]
    rw [ih (fun c hc => h c (List.mem_cons_of_mem _ hc))]

lemma takeWhile_eq_self {p : Char → Bool} : ∀ {l : Str}, (∀ c ∈ l, p c = true) →
    l.takeWhile p = l := by
  intro l
  induction l with
  | nil => intro _; rfl
  | cons a t ih =>
    intro h
    rw [List.takeWhile_cons, if_pos (h a (List.mem_cons_self a t))]
    rw [ih (fun c hc => h c (List.mem_cons_of_mem _ hc))]

lemma filter_eq_self' {α : Type} {p : α → Bool} : ∀ {l : List α}, (∀ c ∈ l, p c = true) →
    l.filter p = l := by
  intro l
  induction l with
  | nil => intro _; rfl
  | cons a t ih =>
    intro h
    rw [List.filter_cons, if_pos (h a (List.mem_cons_self a t))]
    rw [ih (fun c hc => h c (List.mem_cons_of_mem _ hc))]

lemma basename_eq_self {l : Str} (h : ∀ c ∈ l, (c == '/') = false) : basename l = l := by
  unfold basename
  rw [takeWhile_eq_self, List.reverse_reverse]
  intro c hc
  rw [List.mem_reverse] at hc
  show (!(c == '/')) = true
  rw [h c hc]
  rfl

lemma dropWhile_eq_self' {p : Char → Bool} {l : Str}
    (h : ∀ a, l.head? = some a → p a = false) : l.dropWhile p = l := by
  cases l with
  | nil => rfl
  | cons a t =>
    rw [List.dropWhile_cons, if_neg]
    rw [h a rfl]
    simp

lemma head?_dropWhile {p : Char → Bool} : ∀ {l : Str} {a : Char},
    (l.dropWhile p).head? = some a → p a = false := by
  intro l
  induction l with
  | nil => intro a h; simp [List.dropWhile] at h
  | cons c t ih =>
    intro a h
    rw [List.dropWhile_cons] at h
    by_cases hp : p c = true
    · rw [if_pos hp] at h
      exact ih h
    · rw [if_neg hp] at h
      rw [List.head?_cons] at h
      cases h
      exact Bool.eq_false_iff.mpr hp

lemma head?_append_some {x y : Str} {a : Char} (h : x.head? = some a) :
    (x ++ y).head? = some a := by
  cases x with
  | nil => simp at h
  | cons c t => simpa using h

lemma dropWhile_suffix_ex (p : Char → Bool) : ∀ l : Str, ∃ t, t ++ l.dropWhile p = l := by
  intro l
  induction l with
  | nil => exact ⟨[], rfl⟩
  | cons a t ih =>
    rw [List.dropWhile_cons]
    by_cases hp : p a = true
    · rw [if_pos hp]
      obtain ⟨s, hs⟩ := ih
      exact ⟨a :: s, by rw [List.cons_append, hs]⟩
    · rw [if_neg hp]
      exact ⟨[], rfl⟩

lemma head?_stripDotSpace {l : Str} {a : Char}
    (h : (stripDotSpace l).head? = some a) : isDotSpace a = false := by
  unfold stripDotSpace at h
  obtain ⟨t, ht⟩ := dropWhile_suffix_ex isDotSpace (l.dropWhile isDotSpace).reverse
  have hm2 : ((l.dropWhile isDotSpace).reverse.dropWhile isDotSpace).reverse ++ t.reverse
      = l.dropWhile isDotSpace := by
    have hc := congrArg List.reverse ht
    rw [List.reverse_append, List.reverse_reverse] at hc
    exact hc
  have hh : (l.dropWhile isDotSpace).head? = some a := by
    rw [← hm2]
    exact head?_append_some h
  exact head?_dropWhile hh

lemma getLast?_stripDotSpace {l : Str} {a : Char}
    (h : (stripDotSpace l).getLast? = some a) : isDotSpace a = false := by
  unfold stripDotSpace at h
  rw [List.getLast?_reverse] at h
  exact head?_dropWhile h

lemma stripDotSpace_eq_self {l : Str}
    (hh : ∀ a, l.head? = some a → isDotSpace a = false)
    (hl : ∀ a, l.getLast? = some a → isDotSpace a = false) :
    stripDotSpace l = l := by
  unfold stripDotSpace
  rw [dropWhile_eq_self' hh]
  rw [dropWhile_eq_self' (fun a ha => hl a (by rwa [← List.head?_reverse]))]
  exact List.reverse_reverse l

lemma length_dropWhile_le (p : Char → Bool) : ∀ l : Str, (l.dropWhile p).length ≤ l.length := by
  intro l
  induction l with
  | nil => exact Nat.le_refl _
  | cons a t ih =>
    rw [List.dropWhile_cons]
    by_cases hp : p a = true
    · rw [if_pos hp]
      exact Nat.le_trans ih (Nat.le_succ _)
    · rw [if_neg hp]

lemma stripDotSpace_length (l : Str) : (stripDotSpace l).length ≤ l.length := by
  unfold stripDotSpace
  calc ((l.dropWhile isDotSpace).reverse.dropWhile isDotSpace).reverse.length
      = ((l.dropWhile isDotSpace).reverse.dropWhile isDotSpace).length := by
        rw [List.length_reverse]
    _ ≤ (l.dropWhile isDotSpace).reverse.length := length_dropWhile_le _ _
    _ = (l.dropWhile isDotSpace).length := by rw [List.length_reverse]
    _ ≤ l.length := length_dropWhile_le _ _

lemma goodName_elim {y : Str} (h : goodName y = true) :
    y ≠ [] ∧ (∀ c ∈ y, validChar c = true) ∧ hasDD y = false ∧
      (∀ a, y.head? = some a → isDotSpace a = false) ∧
      (∀ a, y.getLast? = some a → isDotSpace a = false) ∧ y.length ≤ 100 := by
  unfold goodName at h
  simp only [Bool.and_eq_true, Bool.not_eq_true', decide_eq_true_eq,
    List.all_eq_true] at h
  obtain ⟨⟨⟨⟨⟨h1, h2⟩, h3⟩, h4⟩, h5⟩, h6⟩ := h
  refine ⟨?_, h2, h3, ?_, ?_, h6⟩
  · intro he
    rw [he] at h1
    simp at h1
  · intro a ha
    rw [ha] at h4
    simpa using h4
  · intro a ha
    rw [ha] at h5
    simpa using h5

lemma goodName_intro {y : Str} (h1 : y ≠ []) (h2 : ∀ c ∈ y, validChar c = true)
    (h3 : hasDD y = false) (h4 : ∀ a, y.head? = some a → isDotSpace a = false)
    (h5 : ∀ a, y.getLast? = some a → isDotSpace a = false) (h6 : y.length ≤ 100) :
    goodName y = true := by
  unfold goodName
  simp only [Bool.and_eq_true, Bool.not_eq_true', decide_eq_true_eq,
    List.all_eq_true]
  refine ⟨⟨⟨⟨⟨?_, h2⟩, h3⟩, ?_⟩, ?_⟩, h6⟩
  · cases y with
    | nil => exact absurd rfl h1
    | cons a t => rfl
  · cases hy : y.head? with
    | none => rfl
    | some a => simpa using h4 a hy
  · cases hy : y.getLast? with
    | none => rfl
    | some a => simpa using h5 a hy

lemma validChar_beq_slash {c : Char} (hv : validChar c = true) : (c == '/') = false := by
  refine beq_eq_false_iff_ne.mpr ?_
  intro he
  rw [he] at hv
  exact absurd hv (by decide)

lemma validChar_beq_backslash {c : Char} (hv : validChar c = true) : (c == '\\') = false := by
  refine beq_eq_false_iff_ne.mpr ?_
  intro he
  rw [he] at hv
  exact absurd hv (by decide)

lemma sanitize_filename_fixpoint {y : Str} (h : goodName y = true) :
    sanitize_filename y = y := by
  obtain ⟨h1, h2, h3, h4, h5, h6⟩ := goodName_elim h
  have e1 : replaceDotDot y = y := replaceDotDot_of_hasDD_eq_false h3
  have e2 : y.filter (fun c => c != '/') = y := by
    apply filter_eq_self'
    intro c hc
    show (!(c == '/')) = true
    rw [validChar_beq_slash (h2 c hc)]
    rfl
  have e3 : y.filter (fun c => c != '\\') = y := by
    apply filter_eq_self'
    intro c hc
    show (!(c == '\\')) = true
    rw [validChar_beq_backslash (h2 c hc)]
    rfl
  have e4 : y.map sanitizeChar = y := map_sanitizeChar_eq_self h2
  have e5 : stripDotSpace y = y := stripDotSpace_eq_self h4 h5
  have e6 : basename y = y := basename_eq_self (fun c hc => validChar_beq_slash (h2 c hc))
  simp only [sanitize_filename]
  rw [if_neg h1, e1, e2, e3, e4, e5, e6]
  rw [if_neg (by omega : ¬ y.length > 100)]
  rw [if_neg h1]

lemma sanitize_filename_good {x : Str} (hs : '/' ∉ x) (hb : '\\' ∉ x)
    (hlen : x.length ≤ 100) : goodName (sanitize_filename x) = true := by
  by_cases hx : x = []
  · rw [hx]
    decide
  · have e2 : (replaceDotDot x).filter (fun c => c != '/') = replaceDotDot x := by
      apply filter_eq_self'
      intro c hc
      show (!(c == '/')) = true
      rw [beq_eq_false_iff_ne.mpr (fun he => hs (by rw [← he]; exact replaceDotDot_mem hc))]
      rfl
    have e3 : (replaceDotDot x).filter (fun c => c != '\\') = replaceDotDot x := by
      apply filter_eq_self'
      intro c hc
      show (!(c == '\\')) = true
      rw [beq_eq_false_iff_ne.mpr (fun he => hb (by rw [← he]; exact replaceDotDot_mem hc))]
      rfl
    have hdd1 : hasDD ((replaceDotDot x).map sanitizeChar) = false :=
      hasDD_map_sanitizeChar (replaceDotDot_hasDD x)
    have hdd2 : hasDD (stripDotSpace ((replaceDotDot x).map sanitizeChar)) = false :=
      hasDD_stripDotSpace hdd1
    have hv2 : ∀ c ∈ stripDotSpace ((replaceDotDot x).map sanitizeChar), validChar c = true :=
      fun c hc => mem_map_sanitizeChar (mem_stripDotSpace hc)
    have e6 : basename (stripDotSpace ((replaceDotDot x).map sanitizeChar))
        = stripDotSpace ((replaceDotDot x).map sanitizeChar) :=
      basename_eq_self (fun c hc => validChar_beq_slash (hv2 c hc))
    have hlen2 : (stripDotSpace ((replaceDotDot x).map sanitizeChar)).length ≤ 100 := by
      have l1 : ((replaceDotDot x).map sanitizeChar).length = (replaceDotDot x).length :=
        List.length_map _ _
      have l2 := stripDotSpace_length ((replaceDotDot x).map sanitizeChar)
      have l3 := replaceDotDot_length x
      omega
    simp only [sanitize_filename]
    rw [if_neg hx, e2, e3, e6]
    rw [if_neg (by omega : ¬ (stripDotSpace ((replaceDotDot x).map sanitizeChar)).length > 100)]
    by_cases h0 : stripDotSpace ((replaceDotDot x).map sanitizeChar) = []
    · rw [if_pos h0]
      decide
    · rw [if_neg h0]
      exact goodName_intro h0 hv2 hdd2
        (fun a ha => head?_stripDotSpace ha)
        (fun a ha => getLast?_stripDotSpace ha)
        hlen2

/-- C5, counterexample.  The spec claims `sanitize_filename` is idempotent
and never outputs `".."`; on input `"a./.b"` the removal of `'/'` happens
after the removal of `".."`, gluing the two dots together, so the output
is `"a..b"` (which contains `".."`), and a second application collapses it
to `"ab"`. -/
theorem sanitize_filename_not_idempotent_counterexample :
    sanitize_filename (sanitize_filename "a./.b".toList) ≠ sanitize_filename "a./.b".toList
    ∧ hasDD (sanitize_filename "a./.b".toList) = true := by
  constructor
  · decide
  · decide

lemma mem_take {c : Char} : ∀ (n : Nat) (l : Str), c ∈ l.take n → c ∈ l := by
  intro n l
  exact fun h => List.take_subset n l h

lemma sanitize_filename_all_valid (x : Str) :
    ∀ c ∈ sanitize_filename x, validChar c = true := by
  intro c h
  have hvid : ∀ d ∈ ("video".toList : Str), validChar d = true := by decide
  unfold sanitize_filename at h
  by_cases hx : x = []
  · rw [if_pos hx] at h
    exact hvid c h
  · rw [if_neg hx] at h
    simp only at h
    split at h
    · split at h
      · exact hvid c h
      · exact mem_map_sanitizeChar (mem_stripDotSpace (mem_basename (mem_take 100 _ h)))
    · split at h
      · exact hvid c h
      · exact mem_map_sanitizeChar (mem_stripDotSpace (mem_basename h))

/-- C5, amended: unconditionally, the output of `sanitize_filename` never
contains `'/'` or `'\'`; and for inputs that contain no `'/'` and no
`'\'` and are at most 100 characters long, `sanitize_filename` is
additionally idempotent and its output contains no `".."`.  (In general
both of those last two parts fail, see the counterexample.) -/
theorem sanitize_filename_idempotent_amended (x : Str) :
    ('/' ∉ sanitize_filename x ∧ '\\' ∉ sanitize_filename x)
    ∧ ('/' ∉ x → '\\' ∉ x → x.length ≤ 100 →
        sanitize_filename (sanitize_filename x) = sanitize_filename x
        ∧ hasDD (sanitize_filename x) = false) := by
  refine ⟨⟨?_, ?_⟩, ?_⟩
  · intro hm
    exact absurd (sanitize_filename_all_valid x _ hm) (by decide)
  · intro hm
    exact absurd (sanitize_filename_all_valid x _ hm) (by decide)
  · intro h1 h2 h3
    have hg := sanitize_filename_good h1 h2 h3
    exact ⟨sanitize_filename_fixpoint hg, (goodName_elim hg).2.2.1⟩

/-- Witness for the amended C5 theorem at the concrete input
`"My Video(1).mp4"`. -/
theorem sanitize_filename_idempotent_amended_witness :
    ('/' ∉ "My Video(1).mp4".toList ∧ '\\' ∉ "My Video(1).mp4".toList
      ∧ ("My Video(1).mp4".toList : Str).length ≤ 100)
    ∧ sanitize_filename (sanitize_filename "My Video(1).mp4".toList)
        = sanitize_filename "My Video(1).mp4".toList :=
  ⟨⟨by decide, by decide, by decide⟩,
    ((sanitize_filename_idempotent_amended "My Video(1).mp4".toList).2
      (by decide) (by decide) (by decide)).1⟩

/-! ## Lemmas about DownloadThread.run -/

lemma outcomesOf_append (a b : List Ev) :
    outcomesOf (a ++ b) = outcomesOf a ++ outcomesOf b := by
  unfold outcomesOf
  exact List.filterMap_append _ _ _

lemma downloadUrlsOf_append (a b : List Ev) :
    downloadUrlsOf (a ++ b) = downloadUrlsOf a ++ downloadUrlsOf b := by
  unfold downloadUrlsOf
  exact List.filterMap_append _ _ _

lemma sleepCount_append (a b : List Ev) :
    sleepCount (a ++ b) = sleepCount a + sleepCount b := by
  unfold sleepCount
  rw [List.filterMap_append, List.length_append]

lemma summaryCount_append (a b : List Ev) :
    summaryCount (a ++ b) = summaryCount a + summaryCount b := by
  unfold summaryCount
  rw [List.filterMap_append, List.length_append]

lemma outcomesOf_dlItem (env : DlEnv) (savePath : Str) (fmt : Nat) (delay : ℚ)
    (total idx : Nat) (v : Video) :
    outcomesOf (dlItem env savePath fmt delay total idx v) = [itemOutcome env v] := by
  unfold dlItem itemOutcome
  by_cases hd : is_already_downloaded env v.id = true
  · rw [if_pos hd, if_pos hd]
    rfl
  · rw [if_neg hd, if_neg hd]
    by_cases ho : env.download v.url = true
    · rw [if_pos ho, if_pos ho]
      by_cases hs : idx < total ∧ delay > 0
      · rw [if_pos hs]
        rfl
      · rw [if_neg hs]
        rfl
    · rw [if_neg ho, if_neg ho]
      rfl

lemma downloadUrlsOf_dlItem (env : DlEnv) (savePath : Str) (fmt : Nat) (delay : ℚ)
    (total idx : Nat) (v : Video) :
    downloadUrlsOf (dlItem env savePath fmt delay total idx v)
      = if is_already_downloaded env v.id = true then [] else [v.url] := by
  unfold dlItem
  by_cases hd : is_already_downloaded env v.id = true
  · rw [if_pos hd, if_pos hd]
    rfl
  · rw [if_neg hd, if_neg hd]
    by_cases ho : env.download v.url = true
    · rw [if_pos ho]
      by_cases hs : idx < total ∧ delay > 0
      · rw [if_pos hs]
        rfl
      · rw [if_neg hs]
        rfl
    · rw [if_neg ho]
      rfl

lemma sleepCount_dlItem (env : DlEnv) (savePath : Str) (fmt : Nat) (delay : ℚ)
    (total idx : Nat) (v : Video) :
    sleepCount (dlItem env savePath fmt delay total idx v)
      = if (!(is_already_downloaded env v.id) && env.download v.url
            && decide (idx < total) && decide (delay > 0)) = true then 1 else 0 := by
  unfold dlItem
  by_cases hd : is_already_downloaded env v.id = true
  · rw [if_pos hd]
    simp [sleepCount, hd]
  · rw [if_neg hd]
    by_cases ho : env.download v.url = true
    · by_cases hs : idx < total ∧ delay > 0
      · rw [if_pos ho, if_pos hs]
        simp [sleepCount, Bool.eq_false_iff.mpr hd, ho, hs.1, hs.2]
      · rw [if_pos ho, if_neg hs]
        rcases not_and_or.mp hs with h | h <;> simp [sleepCount, h]
    · rw [if_neg ho]
      simp [sleepCount, Bool.eq_false_iff.mpr ho]

lemma summaryCount_dlItem (env : DlEnv) (savePath : Str) (fmt : Nat) (delay : ℚ)
    (total idx : Nat) (v : Video) :
    summaryCount (dlItem env savePath fmt delay total idx v) = 0 := by
  unfold dlItem
  by_cases hd : is_already_downloaded env v.id = true
  · rw [if_pos hd]
    rfl
  · rw [if_neg hd]
    by_cases ho : env.download v.url = true
    · rw [if_pos ho]
      by_cases hs : idx < total ∧ delay > 0
      · rw [if_pos hs]
        rfl
      · rw [if_neg hs]
        rfl
    · rw [if_neg ho]
      rfl

lemma itemOutcome_videoId (env : DlEnv) (v : Video) : (itemOutcome env v).2.2 = v.id := by
  unfold itemOutcome
  by_cases hd : is_already_downloaded env v.id = true
  · rw [if_pos hd]
  · rw [if_neg hd]
    by_cases ho : env.download v.url = true
    · rw [if_pos ho]
    · rw [if_neg ho]

lemma dlRunAux_none_outcomes (env : DlEnv) (savePath : Str) (fmt : Nat) (delay : ℚ)
    (total : Nat) : ∀ (vs : List Video) (idx s f : Nat),
    outcomesOf (dlRunAux env savePath fmt delay total none vs idx s f).1
      = vs.map (itemOutcome env) := by
  intro vs
  induction vs with
  | nil => intro idx s f; rfl
  | cons v rest ih =>
    intro idx s f
    rw [dlRunAux]
    rw [if_pos (show flagAt none (idx - 1) = true from rfl)]
    simp only
    rw [outcomesOf_append, outcomesOf_dlItem, ih]
    rfl

lemma dlRunAux_none_downloads (env : DlEnv) (savePath : Str) (fmt : Nat) (delay : ℚ)
    (total : Nat) : ∀ (vs : List Video) (idx s f : Nat),
    downloadUrlsOf (dlRunAux env savePath fmt delay total none vs idx s f).1
      = (vs.filter (fun v => !(is_already_downloaded env v.id))).map Video.url := by
  intro vs
  induction vs with
  | nil => intro idx s f; rfl
  | cons v rest ih =>
    intro idx s f
    rw [dlRunAux]
    rw [if_pos (show flagAt none (idx - 1) = true from rfl)]
    simp only
    rw [downloadUrlsOf_append, downloadUrlsOf_dlItem, ih, List.filter_cons]
    by_cases hd : is_already_downloaded env v.id = true
    · rw [if_pos hd, if_neg (by simp [hd])]
      rfl
    · rw [if_neg hd, if_pos (by simp [Bool.eq_false_iff.mpr hd])]
      rfl

lemma dlRunAux_none_sleeps (env : DlEnv) (savePath : Str) (fmt : Nat) (delay : ℚ)
    (total : Nat) : ∀ (vs : List Video) (idx s f : Nat),
    sleepCount (dlRunAux env savePath fmt delay total none vs idx s f).1
      = (List.enumFrom idx vs).countP
          (fun p => !(is_already_downloaded env p.2.id) && env.download p.2.url
            && decide (p.1 < total) && decide (delay > 0)) := by
  intro vs
  induction vs with
  | nil => intro idx s f; rfl
  | cons v rest ih =>
    intro idx s f
    rw [dlRunAux]
    rw [if_pos (show flagAt none (idx - 1) = true from rfl)]
    simp only
    rw [sleepCount_append, sleepCount_dlItem, ih]
    rw [List.enumFrom, List.countP_cons]
    by_cases hc : (!(is_already_downloaded env v.id) && env.download v.url
        && decide (idx < total) && decide (delay > 0)) = true
    · rw [if_pos hc]
      omega
    · rw [if_neg hc]
      omega

lemma dlRunAux_none_counters (env : DlEnv) (savePath : Str) (fmt : Nat) (delay : ℚ)
    (total : Nat) : ∀ (vs : List Video) (idx s f : Nat),
    (dlRunAux env savePath fmt delay total none vs idx s f).2.1
        = s + vs.countP (fun v => itemOK env v)
      ∧ (dlRunAux env savePath fmt delay total none vs idx s f).2.2.1
        = f + vs.countP (fun v => !(itemOK env v))
      ∧ (dlRunAux env savePath fmt delay total none vs idx s f).2.2.2
        = idx + vs.length - 1 := by
  intro vs
  induction vs with
  | nil =>
    intro idx s f
    refine ⟨?_, ?_, ?_⟩ <;> simp [dlRunAux]
  | cons v rest ih =>
    intro idx s f
    rw [dlRunAux]
    rw [if_pos (show flagAt none (idx - 1) = true from rfl)]
    simp only
    obtain ⟨i1, i2, i3⟩ := ih (idx + 1) (if itemOK env v then s + 1 else s)
      (if itemOK env v then f else f + 1)
    refine ⟨?_, ?_, ?_⟩
    · rw [i1, List.countP_cons]
      by_cases hv : itemOK env v = true
      · rw [if_pos hv, if_pos hv]
        omega
      · rw [if_neg hv, if_neg hv]
        omega
    · rw [i2, List.countP_cons]
      by_cases hv : itemOK env v = true
      · rw [if_pos hv, if_neg (by simp [hv])]
        omega
      · rw [if_neg hv, if_pos (by simp [Bool.eq_false_iff.mpr hv])]
        omega
    · rw [i3]
      rw [List.length_cons]
      omega

lemma dlRunAux_summaryCount (env : DlEnv) (savePath : Str) (fmt : Nat) (delay : ℚ)
    (total : Nat) (cancelAt : Option Nat) : ∀ (vs : List Video) (idx s f : Nat),
    summaryCount (dlRunAux env savePath fmt delay total cancelAt vs idx s f).1 = 0 := by
  intro vs
  induction vs with
  | nil => intro idx s f; rfl
  | cons v rest ih =>
    intro idx s f
    rw [dlRunAux]
    by_cases hflag : flagAt cancelAt (idx - 1) = true
    · rw [if_pos hflag]
      simp only
      rw [summaryCount_append, summaryCount_dlItem, ih]
    · rw [if_neg hflag]
      rfl

lemma dlRunAux_cancel_all (env : DlEnv) (savePath : Str) (fmt : Nat) (delay : ℚ)
    (total c : Nat) : ∀ (vs : List Video) (j s f : Nat), j + vs.length ≤ c →
    dlRunAux env savePath fmt delay total (some c) vs (j + 1) s f
      = dlRunAux env savePath fmt delay total none vs (j + 1) s f := by
  intro vs
  induction vs with
  | nil => intro j s f _; rfl
  | cons v rest ih =>
    intro j s f h
    rw [List.length_cons] at h
    rw [dlRunAux, dlRunAux]
    rw [if_pos (show flagAt (some c) (j + 1 - 1) = true from by
          simp only [flagAt, Nat.add_sub_cancel]; exact decide_eq_true (by omega)),
        if_pos (show flagAt none (j + 1 - 1) = true from rfl)]
    simp only
    rw [ih (j + 1) (if itemOK env v then s + 1 else s)
      (if itemOK env v then f else f + 1) (by omega)]

lemma dlRunAux_cancel_cut (env : DlEnv) (savePath : Str) (fmt : Nat) (delay : ℚ)
    (total c : Nat) : ∀ (vs : List Video) (j s f : Nat), j ≤ c → c < j + vs.length →
    (dlRunAux env savePath fmt delay total (some c) vs (j + 1) s f).1
        = (dlRunAux env savePath fmt delay total none (vs.take (c - j)) (j + 1) s f).1
      ∧ (dlRunAux env savePath fmt delay total (some c) vs (j + 1) s f).2.2.2 = c + 1 := by
  intro vs
  induction vs with
  | nil =>
    intro j s f h1 h2
    rw [List.length_nil] at h2
    omega
  | cons v rest ih =>
    intro j s f h1 h2
    rw [List.length_cons] at h2
    by_cases hj : j < c
    · have htake : (v :: rest).take (c - j) = v :: rest.take (c - (j + 1)) := by
        rw [show c - j = (c - (j + 1)) + 1 from by omega, List.take_succ_cons]
      rw [htake]
      rw [dlRunAux, dlRunAux]
      rw [if_pos (show flagAt (some c) (j + 1 - 1) = true from by
            simp only [flagAt, Nat.add_sub_cancel]; exact decide_eq_true hj),
          if_pos (show flagAt none (j + 1 - 1) = true from rfl)]
      simp only
      obtain ⟨ha, hb⟩ := ih (j + 1) (if itemOK env v then s + 1 else s)
        (if itemOK env v then f else f + 1) (by omega) (by omega)
      exact ⟨by rw [ha], hb⟩
    · have hjc : j = c := by omega
      rw [dlRunAux]
      rw [if_neg (show ¬ flagAt (some c) (j + 1 - 1) = true from by
            simp only [flagAt, Nat.add_sub_cancel]; simp; omega)]
      refine ⟨?_, ?_⟩
      · rw [show c - j = 0 from by omega]
        rfl
      · show j + 1 = c + 1
        omega

lemma dlRun_none_eq (env : DlEnv) (videos : List Video) (savePath : Str) (fmt : Nat)
    (delay : ℚ) :
    dlRun env videos savePath fmt delay none
      = (dlRunAux env savePath fmt delay videos.length none videos 1 0 0).1
        ++ [.summary (videos.countP (fun v => itemOK env v))
            (videos.countP (fun v => !(itemOK env v)))] := by
  unfold dlRun
  simp only
  rw [if_pos (show flagAt none
    (dlRunAux env savePath fmt delay videos.length none videos 1 0 0).2.2.2 = true from rfl)]
  obtain ⟨c1, c2, _⟩ := dlRunAux_none_counters env savePath fmt delay videos.length videos 1 0 0
  rw [c1, c2, Nat.zero_add, Nat.zero_add]

/-- C1: the spec requires `DownloadThread.run` to verify that the parent
of the resolved output path equals the canonical save directory and to
refuse the download otherwise; the code performs no such comparison
(lines 694-706 go straight from `sanitize_path` to `ydl.download`).  In
an environment where the resolved template's parent (`"/e"`) differs from
the canonical save directory (`"/d"`), the run still issues the download
and reports success. -/
theorem dl_no_parent_dir_check_code_bug :
    Ev.download videoSym.url ("/e/f.%(ext)s".toList)
        ∈ dlRun dlEnvSym [videoSym] "/d".toList 3 0 none
    ∧ dirname ("/e/f.%(ext)s".toList) ≠ sanitize_path dlEnvSym "/d".toList
    ∧ outcomesOf (dlRun dlEnvSym [videoSym] "/d".toList 3 0 none)
        = [(true, Msg.downloaded ("f".toList), "i1".toList)] := by
  refine ⟨by decide, by decide, by decide⟩

/-- C2: with cancellation never requested, `DownloadThread.run` emits
exactly one outcome per record, in input order (the outcome stream is the
map of the per-item outcome over the input; in particular the emitted ids
are the record ids in order), and the final event is the aggregate line
with `success = ` the number of non-failing items (duplicates skipped or
downloads that succeeded) and `failed = ` the number of failing items.
With exactly one failing item this is `failed = 1`,
`success = n - 1`. -/
theorem dl_outcomes_in_order_and_failure_isolation (env : DlEnv) (videos : List Video)
    (savePath : Str) (fmt : Nat) (delay : ℚ) :
    outcomesOf (dlRun env videos savePath fmt delay none) = videos.map (itemOutcome env)
    ∧ (outcomesOf (dlRun env videos savePath fmt delay none)).map (fun o => o.2.2)
        = videos.map Video.id
    ∧ (dlRun env videos savePath fmt delay none).getLast?
        = some (.summary (videos.countP (fun v => itemOK env v))
            (videos.countP (fun v => !(itemOK env v)))) := by
  rw [dlRun_none_eq]
  refine ⟨?_, ?_, ?_⟩
  · rw [outcomesOf_append, dlRunAux_none_outcomes]
    rw [show outcomesOf [Ev.summary (videos.countP (fun v => itemOK env v))
      (videos.countP (fun v => !(itemOK env v)))] = [] from rfl, List.append_nil]
  · rw [outcomesOf_append, dlRunAux_none_outcomes]
    rw [show outcomesOf [Ev.summary (videos.countP (fun v => itemOK env v))
      (videos.countP (fun v => !(itemOK env v)))] = [] from rfl, List.append_nil]
    rw [List.map_map]
    congr 1
    funext v
    exact itemOutcome_videoId env v
  · exact List.getLast?_concat _

/-- C3: if the save-directory listing succeeds and some existing filename
contains the `i`-th record's id as a substring, the `i`-th outcome of the
run is the successful already-exists (skipped-as-duplicate) one, and the
download calls of the whole run are exactly those for the records that
are *not* already downloaded — in particular none for the `i`-th. -/
theorem dl_dedup_skip (env : DlEnv) (videos : List Video) (savePath : Str)
    (fmt : Nat) (delay : ℚ) (i : Nat) (hi : i < videos.length) (files : List Str)
    (hls : env.listdir = some files)
    (hf : ∃ fl ∈ files, strContains (videos.get ⟨i, hi⟩).id fl = true) :
    (outcomesOf (dlRun env videos savePath fmt delay none))[i]?
        = some (true, .alreadyExists ((videos.get ⟨i, hi⟩).title.take 50),
            (videos.get ⟨i, hi⟩).id)
    ∧ downloadUrlsOf (dlRun env videos savePath fmt delay none)
        = (videos.filter (fun v => !(is_already_downloaded env v.id))).map Video.url := by
  have hdup : is_already_downloaded env (videos.get ⟨i, hi⟩).id = true := by
    unfold is_already_downloaded
    rw [hls, List.any_eq_true]
    exact hf
  constructor
  · rw [dlRun_none_eq, outcomesOf_append, dlRunAux_none_outcomes]
    rw [show outcomesOf [Ev.summary (videos.countP (fun v => itemOK env v))
      (videos.countP (fun v => !(itemOK env v)))] = [] from rfl, List.append_nil]
    rw [List.getElem?_map]
    rw [show videos[i]? = some (videos.get ⟨i, hi⟩) from List.getElem?_eq_getElem hi]
    rw [show Option.map (itemOutcome env) (some (videos.get ⟨i, hi⟩))
      = some (itemOutcome env (videos.get ⟨i, hi⟩)) from rfl]
    unfold itemOutcome
    rw [if_pos hdup]
  · rw [dlRun_none_eq, downloadUrlsOf_append, dlRunAux_none_downloads]
    rw [show downloadUrlsOf [Ev.summary (videos.countP (fun v => itemOK env v))
      (videos.countP (fun v => !(itemOK env v)))] = [] from rfl, List.append_nil]

/-- Witness for C3 at the spec's own example: existing file
`"07_MyClip_ab12.mp4"`, record id `"ab12"`. -/
theorem dl_dedup_skip_witness :
    (∃ fl ∈ ["07_MyClip_ab12.mp4".toList], strContains videoC3.id fl = true)
    ∧ (outcomesOf (dlRun dlEnvC3 [videoC3] "/d".toList 0 2 none))[0]?
        = some (true, .alreadyExists (videoC3.title.take 50), videoC3.id) :=
  ⟨by decide,
    (dl_dedup_skip dlEnvC3 [videoC3] "/d".toList 0 2 0 (by decide)
      ["07_MyClip_ab12.mp4".toList] rfl (by decide)).1⟩

/-- C4: if the cancellation flag is lowered after item `k` of `n`
completes (`k < n`), the run emits exactly `k` per-item outcomes and no
aggregate summary line; and in any run, a summary line can only appear
when every flag check of the run (including the final one) saw the flag
up, i.e. when the run was never cancelled. -/
theorem dl_cancellation_mid_batch (env : DlEnv) (videos : List Video) (savePath : Str)
    (fmt : Nat) (delay : ℚ) (k : Nat) (hk : k < videos.length) :
    (outcomesOf (dlRun env videos savePath fmt delay (some k))).length = k
    ∧ summaryCount (dlRun env videos savePath fmt delay (some k)) = 0
    ∧ ∀ co : Option Nat, 0 < summaryCount (dlRun env videos savePath fmt delay co) →
        ∀ r ≤ videos.length, flagAt co r = true := by
  obtain ⟨ha, hb⟩ := dlRunAux_cancel_cut env savePath fmt delay videos.length k videos 0 0 0
    (Nat.zero_le k) (by omega)
  simp only [Nat.zero_add, Nat.sub_zero] at ha hb
  have hrun : dlRun env videos savePath fmt delay (some k)
      = (dlRunAux env savePath fmt delay videos.length (some k) videos 1 0 0).1 := by
    unfold dlRun
    simp only
    rw [if_neg (by rw [hb]; simp [flagAt])]
  refine ⟨?_, ?_, ?_⟩
  · rw [hrun, ha, dlRunAux_none_outcomes, List.length_map, List.length_take]
    omega
  · rw [hrun]
    exact dlRunAux_summaryCount env savePath fmt delay videos.length (some k) videos 1 0 0
  · intro co hco r hr
    cases co with
    | none => rfl
    | some c =>
      by_cases hcn : videos.length ≤ c
      · have heq := dlRunAux_cancel_all env savePath fmt delay videos.length c videos 0 0 0
          (by omega)
        simp only [Nat.zero_add] at heq
        obtain ⟨_, _, i3⟩ := dlRunAux_none_counters env savePath fmt delay videos.length
          videos 1 0 0
        unfold dlRun at hco
        simp only at hco
        rw [heq] at hco
        by_cases hf : flagAt (some c)
            ((dlRunAux env savePath fmt delay videos.length none videos 1 0 0).2.2.2) = true
        · rw [i3] at hf
          simp only [flagAt, decide_eq_true_eq] at hf
          simp only [flagAt]
          exact decide_eq_true (by omega)
        · rw [if_neg hf, dlRunAux_summaryCount] at hco
          omega
      · obtain ⟨_, hb2⟩ := dlRunAux_cancel_cut env savePath fmt delay videos.length c
          videos 0 0 0 (by omega) (by omega)
        simp only [Nat.zero_add, Nat.sub_zero] at hb2
        unfold dlRun at hco
        simp only at hco
        rw [if_neg (by rw [hb2]; simp [flagAt]), dlRunAux_summaryCount] at hco
        omega

/-- Witness for C4: cancelling after item 2 of 3 yields exactly 2
outcomes and no aggregate line. -/
theorem dl_cancellation_mid_batch_witness :
    2 < ([videoA, videoB, videoC] : List Video).length
    ∧ (outcomesOf (dlRun dlEnvPlain [videoA, videoB, videoC] "/d".toList 0 2 (some 2))).length = 2
    ∧ summaryCount (dlRun dlEnvPlain [videoA, videoB, videoC] "/d".toList 0 2 (some 2)) = 0 :=
  ⟨by decide,
    (dl_cancellation_mid_batch dlEnvPlain [videoA, videoB, videoC] "/d".toList 0 2 2
      (by decide)).1,
    (dl_cancellation_mid_batch dlEnvPlain [videoA, videoB, videoC] "/d".toList 0 2 2
      (by decide)).2.1⟩

lemma dlRunAux_none_trace (env : DlEnv) (savePath : Str) (fmt : Nat) (delay : ℚ)
    (total : Nat) : ∀ (vs : List Video) (idx s f : Nat),
    (dlRunAux env savePath fmt delay total none vs idx s f).1
      = ((List.enumFrom idx vs).map
          (fun p => dlItem env savePath fmt delay total p.1 p.2)).flatten := by
  intro vs
  induction vs with
  | nil => intro idx s f; rfl
  | cons v rest ih =>
    intro idx s f
    rw [dlRunAux]
    rw [if_pos (show flagAt none (idx - 1) = true from rfl)]
    simp only
    rw [ih]
    rfl

/-- C7, amended (full trace characterization): with no cancellation, the
run's event trace is exactly the concatenation, in input order, of the
per-item blocks followed by the aggregate line, where the block of item
`idx` is: the skip outcome alone for a duplicate; otherwise the status
line and the download call, then — on success — the success outcome
followed by the pacing sleep *exactly when* the item is not the last and
`rate_limit_delay > 0`, or — on failure — the failure outcome with no
sleep.  So a sleep occurs exactly immediately after the
successful-download outcome of each non-last item (with positive delay),
and never after a duplicate skip or a failure. -/
theorem dl_sleep_only_after_successful_download (env : DlEnv) (videos : List Video)
    (savePath : Str) (fmt : Nat) (delay : ℚ) :
    dlRun env videos savePath fmt delay none
      = ((List.enumFrom 1 videos).map (fun p =>
          if is_already_downloaded env p.2.id then
            [Ev.outcome true (.alreadyExists (p.2.title.take 50)) p.2.id]
          else
            [Ev.statusLine p.1 videos.length (p.2.title.take 50),
              Ev.download p.2.url (sanitize_path env (osJoin savePath
                (deriveFilename fmt p.1 p.2 ++ ".%(ext)s".toList)))] ++
              (if env.download p.2.url then
                [Ev.outcome true (.downloaded (p.2.title.take 50)) p.2.id] ++
                  (if p.1 < videos.length ∧ delay > 0 then [Ev.sleep delay] else [])
              else
                [Ev.outcome false (.failed (p.2.title.take 50)) p.2.id]))).flatten
        ++ [.summary (videos.countP (fun v => itemOK env v))
            (videos.countP (fun v => !(itemOK env v)))] := by
  rw [dlRun_none_eq, dlRunAux_none_trace]
  rfl

/-- C7, counterexample: with `rate_limit_delay = 2 > 0` and two records of
which the first is skipped as a duplicate (a non-last item), the claim
requires a pacing sleep after item 1, but the run performs no sleep at
all: the dedup path `continue`s before reaching the sleep. -/
theorem dl_no_sleep_after_duplicate_counterexample :
    outcomesOf (dlRun dlEnvDup [videoDup, videoNext] "/d".toList 0 2 none)
      = [(true, .alreadyExists ("MyClip".toList), "ab12".toList),
         (true, .downloaded ("Other".toList), "zz99".toList)]
    ∧ sleepCount (dlRun dlEnvDup [videoDup, videoNext] "/d".toList 0 2 none) = 0 :=
  ⟨by decide, by decide⟩

/-- C10: if listing the save directory fails, `is_already_downloaded`
returns `false` for every id (the exception is swallowed), so the run
attempts the download of every record — the download calls are exactly
the record URLs in order — and no outcome is a skipped-as-duplicate
one. -/
theorem dl_listdir_failure_proceeds (env : DlEnv) (videos : List Video) (savePath : Str)
    (fmt : Nat) (delay : ℚ) (h : env.listdir = none) :
    downloadUrlsOf (dlRun env videos savePath fmt delay none) = videos.map Video.url
    ∧ ∀ o ∈ outcomesOf (dlRun env videos savePath fmt delay none),
        (o.2.1).isSkip = false := by
  have hnd : ∀ id : Str, is_already_downloaded env id = false := by
    intro id
    unfold is_already_downloaded
    rw [h]
  constructor
  · rw [dlRun_none_eq, downloadUrlsOf_append, dlRunAux_none_downloads]
    rw [show downloadUrlsOf [Ev.summary (videos.countP (fun v => itemOK env v))
      (videos.countP (fun v => !(itemOK env v)))] = [] from rfl, List.append_nil]
    rw [filter_eq_self' (fun v _ => by rw [hnd v.id]; rfl)]
  · intro o ho
    rw [dlRun_none_eq, outcomesOf_append] at ho
    rw [show outcomesOf [Ev.summary (videos.countP (fun v => itemOK env v))
      (videos.countP (fun v => !(itemOK env v)))] = [] from rfl, List.append_nil,
      dlRunAux_none_outcomes] at ho
    obtain ⟨v, _, hv⟩ := List.mem_map.mp ho
    subst hv
    unfold itemOutcome
    rw [if_neg (by rw [hnd v.id]; exact Bool.false_ne_true)]
    by_cases hdl : env.download v.url = true
    · rw [if_pos hdl]
      rfl
    · rw [if_neg hdl]
      rfl

/-- Witness for C10: with an unreadable save directory and one record,
the run issues exactly that record's download. -/
theorem dl_listdir_failure_proceeds_witness :
    dlEnvNoList.listdir = none
    ∧ downloadUrlsOf (dlRun dlEnvNoList [videoC10] "/d".toList 0 2 none)
        = [videoC10].map Video.url :=
  ⟨rfl, (dl_listdir_failure_proceeds dlEnvNoList [videoC10] "/d".toList 0 2 rfl).1⟩

/-! ## Claim theorems about check_disk_space (C8) -/

/-- C8, counterexample: with exactly `required_mb` megabytes free
(100 MB free, 100 MB required), "at least `required_mb` free" holds, yet
the code's strict comparison `free_mb > required_mb` makes it return
`false`. -/
theorem check_disk_space_boundary_counterexample :
    (check_disk_space (some (100 * 1024 * 1024)) 100).1 = false
    ∧ ((100 * 1024 * 1024 : Nat) : ℚ) / (1024 * 1024) ≥ 100 := by
  constructor
  · simp [check_disk_space]
    norm_num
  · norm_num

/-- C8, amended: `check_disk_space` reports `true` exactly when *strictly
more* than `required_mb` megabytes are free (not "at least"), it reports
the free megabytes alongside, and any failure to query the filesystem
yields `(true, 0)` instead of raising. -/
theorem check_disk_space_strict_amended (b : Nat) (req : ℚ) :
    ((check_disk_space (some b) req).1 = true ↔ (b : ℚ) / (1024 * 1024) > req)
    ∧ (check_disk_space (some b) req).2 = (b : ℚ) / (1024 * 1024)
    ∧ check_disk_space none req = (true, 0) := by
  refine ⟨?_, rfl, rfl⟩
  simp [check_disk_space]

/-! ## Claim theorems about VideoInfoThread progress (C9) -/

lemma progressOf_append (a b : List VIEv) :
    progressOf (a ++ b) = progressOf a ++ progressOf b := by
  unfold progressOf
  exact List.filterMap_append _ _ _

lemma progressOf_viItem (env : VIEnv) (total idx : Nat) (u : Str) :
    progressOf (viItem env total idx u).1
      = if is_valid_url u = true then [pyProgress idx total] else [] := by
  unfold viItem
  by_cases hv : is_valid_url u = true
  · rw [if_neg (not_not_intro hv), if_pos hv]
    cases env.fetchInfo u <;> rfl
  · rw [if_pos hv, if_neg hv]
    rfl

lemma viRunAux_progress (env : VIEnv) (total : Nat) : ∀ (urls : List Str) (idx : Nat),
    progressOf (viRunAux env total urls idx).1
      = ((List.enumFrom idx urls).filter (fun p => is_valid_url p.2)).map
          (fun p => pyProgress p.1 total) := by
  intro urls
  induction urls with
  | nil => intro idx; rfl
  | cons u rest ih =>
    intro idx
    rw [viRunAux]
    simp only
    rw [progressOf_append, progressOf_viItem, ih, List.enumFrom, List.filter_cons]
    by_cases hv : is_valid_url u = true
    · rw [if_pos hv, if_pos (show (fun p : Nat × Str => is_valid_url p.2) (idx, u) = true from hv)]
      rfl
    · rw [if_neg hv, if_neg (show ¬ (fun p : Nat × Str => is_valid_url p.2) (idx, u) = true from hv)]
      rfl

/-- C9, amended: during metadata collection the progress emitted while
processing the index-th URL (for the URLs that pass validation; invalid
URLs are skipped before any progress is emitted) is the *truncation*
`int((index / total) * 90)` as Python computes it in binary64 floating
point (`pyProgress`), not `round(index / total * 90)`; `100` is emitted
on completion.  The float truncation can also fall below the exact
rational floor: at index 7 of 10 the code yields `62` where
`⌊90 * 7 / 10⌋ = 63` (last two conjuncts). -/
theorem vi_progress_formula_amended (env : VIEnv) (urls : List Str) :
    (progressOf (videoInfoRun env urls).1
      = ((List.enumFrom 1 urls).filter (fun p => is_valid_url p.2)).map
          (fun p => pyProgress p.1 urls.length) ++ [100])
    ∧ pyProgress 7 10 = 62 ∧ (90 * 7) / 10 = 63 := by
  refine ⟨?_, by decide, by decide⟩
  unfold videoInfoRun
  simp only
  rw [progressOf_append, viRunAux_progress]
  rfl

/-- C9, counterexample: with 7 URLs, the progress emitted while processing
URL 1 is `int((1/7)*90) = 12`, but `round(1/7 * 90) = 13`; the code
truncates, it does not round. -/
theorem vi_progress_rounding_counterexample :
    (progressOf (videoInfoRun viEnvErr urls7).1).head? = some 12
    ∧ (12 : ℤ) ≠ round ((1 / 7 : ℚ) * 90) := by
  constructor
  · decide
  · have h13 : round ((1 / 7 : ℚ) * 90) = 13 := by
      rw [round_eq]
      rw [show ((1 / 7 : ℚ) * 90 + 1 / 2) = 187 / 14 by norm_num]
      rw [Int.floor_eq_iff]
      constructor <;> norm_num
    rw [h13]
    decide

/-! ## Claim theorems about the collectors' record invariant (C6) -/

lemma take100_ne_nil {l : Str} (h : l ≠ []) : l.take 100 ≠ [] := by
  cases l with
  | nil => exact absurd rfl h
  | cons a t =>
    rw [show (100 : Nat) = 99 + 1 from rfl, List.take_succ_cons]
    simp

lemma mkVideoInfo_url (idx : Nat) (url : Str) (info : Info) :
    (mkVideoInfo idx url info).url = url := rfl

lemma fallback_title_ne_nil (t1 uploader date : Str) :
    (if t1 = [] ∨ t1 = "Untitled".toList then
      (if date ≠ [] then uploader ++ '_' :: date else uploader ++ "_video".toList)
    else t1) ≠ [] := by
  split
  · split
    · intro h
      rcases List.append_eq_nil.mp h with ⟨_, h2⟩
      exact absurd h2 (by simp)
    · intro h
      rcases List.append_eq_nil.mp h with ⟨_, h2⟩
      exact absurd h2 (by decide)
  · next hno =>
    exact fun hh => hno (Or.inl hh)

lemma mkVideoInfo_title_ne_nil (idx : Nat) (url : Str) (info : Info) :
    (mkVideoInfo idx url info).title ≠ [] := by
  unfold mkVideoInfo
  simp only
  exact fallback_title_ne_nil _ _ _

lemma mkVideoInfo_id_ne_nil (idx : Nat) (url : Str) (info : Info)
    (hdid : info.display_id ≠ some []) : (mkVideoInfo idx url info).id ≠ [] := by
  unfold mkVideoInfo
  simp only
  split
  · next h => exact h
  · next h =>
    cases hd : info.display_id with
    | none => simp [Option.getD]
    | some s =>
      rw [Option.getD]
      intro hs
      exact hdid (by rw [hd, hs])

lemma viRunAux_records (env : VIEnv) (total : Nat) : ∀ (urls : List Str) (idx : Nat)
    (v : Video), v ∈ (viRunAux env total urls idx).2 →
    ∃ u i j, is_valid_url u = true ∧ env.fetchInfo u = .ok i ∧ v = mkVideoInfo j u i := by
  intro urls
  induction urls with
  | nil => intro idx v h; simp [viRunAux] at h
  | cons u rest ih =>
    intro idx v h
    rw [viRunAux] at h
    simp only at h
    rw [List.mem_append] at h
    rcases h with h | h
    · unfold viItem at h
      by_cases hv : is_valid_url u = true
      · rw [if_neg (not_not_intro hv)] at h
        cases hf : env.fetchInfo u with
        | err => rw [hf] at h; simp at h
        | noInfo => rw [hf] at h; simp at h
        | ok info =>
          rw [hf] at h
          simp at h
          exact ⟨u, info, idx, hv, hf, h⟩
      · rw [if_pos hv] at h
        simp at h
    · exact ih (idx + 1) v h

lemma scrapeAux_mem (maxv : Nat) : ∀ (posts : List Post) (count : Nat) (v : Video),
    v ∈ scrapeAux maxv posts count →
    ∃ p ∈ posts, p.is_video = true ∧ v = mkVideoInsta p := by
  intro posts
  induction posts with
  | nil => intro count v h; simp [scrapeAux] at h
  | cons p rest ih =>
    intro count v h
    rw [scrapeAux] at h
    by_cases hc : count ≥ maxv
    · rw [if_pos hc] at h
      simp at h
    · rw [if_neg hc] at h
      simp only at h
      by_cases hv : p.is_video = true
      · rw [if_pos hv] at h
        rcases List.mem_cons.mp h with h | h
        · exact ⟨p, List.mem_cons_self _ _, hv, h⟩
        · obtain ⟨q, hq, hqv, hveq⟩ := ih (count + 1) v h
          exact ⟨q, List.mem_cons_of_mem _ hq, hqv, hveq⟩
      · rw [if_neg hv] at h
        obtain ⟨q, hq, hqv, hveq⟩ := ih (count + 1) v h
        exact ⟨q, List.mem_cons_of_mem _ hq, hqv, hveq⟩

lemma pfEntriesAux_mem (platform : Platform) : ∀ (entries : List (Option YEntry))
    (idx : Nat) (v : Video), v ∈ pfEntriesAux platform entries idx →
    ∃ e j, some e ∈ entries ∧ v = mkVideoY platform j e := by
  intro entries
  induction entries with
  | nil => intro idx v h; simp [pfEntriesAux] at h
  | cons e? rest ih =>
    intro idx v h
    cases e? with
    | some e =>
      rw [pfEntriesAux] at h
      rcases List.mem_cons.mp h with h | h
      · exact ⟨e, idx, List.mem_cons_self _ _, h⟩
      · obtain ⟨e2, j, hmem, hveq⟩ := ih (idx + 1) v h
        exact ⟨e2, j, List.mem_cons_of_mem _ hmem, hveq⟩
    | none =>
      rw [pfEntriesAux] at h
      obtain ⟨e2, j, hmem, hveq⟩ := ih (idx + 1) v h
      exact ⟨e2, j, List.mem_cons_of_mem _ hmem, hveq⟩

lemma instaTitle_ne_nil (cap : Option Str) :
    (match cap with
      | some c => if c ≠ [] then c.take 100 else "Untitled".toList
      | none => "Untitled".toList) ≠ [] := by
  cases cap with
  | none => decide
  | some c =>
    show (if c ≠ [] then c.take 100 else "Untitled".toList) ≠ []
    by_cases hc : c = []
    · rw [if_neg (not_not_intro hc)]
      decide
    · rw [if_pos hc]
      exact take100_ne_nil hc

lemma mkVideoInsta_good {p : Post} (h : goodPostB p = true) :
    (mkVideoInsta p).id ≠ [] ∧ (mkVideoInsta p).title ≠ []
      ∧ is_valid_url (mkVideoInsta p).url = true := by
  simp only [goodPostB, Bool.and_eq_true, Bool.not_eq_true'] at h
  obtain ⟨h1, h2⟩ := h
  refine ⟨?_, ?_, ?_⟩
  · show p.shortcode ≠ []
    intro he
    rw [he] at h1
    simp at h1
  · show (match p.caption with
      | some c => if c ≠ [] then c.take 100 else "Untitled".toList
      | none => "Untitled".toList) ≠ []
    exact instaTitle_ne_nil p.caption
  · exact h2

lemma mkVideoY_good {platform : Platform} {idx : Nat} {e : YEntry}
    (h : goodEntryB e = true) :
    (mkVideoY platform idx e).id ≠ [] ∧ (mkVideoY platform idx e).title ≠ []
      ∧ is_valid_url (mkVideoY platform idx e).url = true := by
  simp only [goodEntryB, Bool.and_eq_true] at h
  obtain ⟨⟨⟨hid, hti⟩, hpre⟩, hurl⟩ := h
  refine ⟨?_, ?_, ?_⟩
  · show e.id.getD ("video_".toList ++ natDigits idx) ≠ []
    cases hie : e.id with
    | none => simp [Option.getD]
    | some s =>
      rw [hie] at hid
      rw [Option.getD]
      intro hs
      rw [hs] at hid
      simp at hid
  · show (e.title.getD "Untitled".toList).take 100 ≠ []
    apply take100_ne_nil
    cases hte : e.title with
    | none => rw [Option.getD]; decide
    | some s =>
      rw [hte] at hti
      rw [Option.getD]
      intro hs
      rw [hs] at hti
      simp at hti
  · show is_valid_url (if ¬ ("http".toList.isPrefixOf (effUrl e) = true) then _ else effUrl e) = true
    rw [if_neg (not_not_intro hpre)]
    exact hurl

/-- C6, amended.  Records produced by `VideoInfoThread` always have a
nonempty title and a URL accepted by `is_valid_url`; their id is nonempty
provided the extractor never reports a present-but-empty `display_id`
(the `or` of line 595 falls through an empty `id` but returns a present
`display_id` as is).  Records produced by `ProfileFetchThread` satisfy
the invariant provided the enumerated posts/entries are well formed: the
raw collaborator data can otherwise force an empty title (present-but-
empty `title`), an empty id, or an invalid URL into a record. -/
theorem collectors_invariant_amended :
    (∀ (env : VIEnv) (urls : List Str) (v : Video), v ∈ (videoInfoRun env urls).2.2 →
        v.title ≠ [] ∧ is_valid_url v.url = true
          ∧ ((∀ (u : Str) (i : Info), env.fetchInfo u = .ok i → i.display_id ≠ some []) →
              v.id ≠ []))
    ∧ (∀ (env : PFEnv) (url : Str) (maxv : Nat) (v : Video), goodPFEnv env = true →
        v ∈ (pfRun env url maxv).2 →
        v.id ≠ [] ∧ v.title ≠ [] ∧ is_valid_url v.url = true) := by
  constructor
  · intro env urls v hv
    obtain ⟨u, i, j, hvalid, hfetch, hveq⟩ := viRunAux_records env urls.length urls 1 v (by
      unfold videoInfoRun at hv
      simpa using hv)
    subst hveq
    refine ⟨mkVideoInfo_title_ne_nil j u i, ?_, ?_⟩
    · rw [mkVideoInfo_url]
      exact hvalid
    · intro hgood
      exact mkVideoInfo_id_ne_nil j u i (hgood u i hfetch)
  · intro env url maxv v hgood hv
    simp only [goodPFEnv, Bool.and_eq_true] at hgood
    obtain ⟨hg1, hg2⟩ := hgood
    unfold pfRun at hv
    simp only at hv
    by_cases hp : detect_platform url = Platform.instagram
    · rw [if_pos hp] at hv
      by_cases hia : env.instaAvailable = true
      · rw [if_pos hia] at hv
        cases hu : extract_instagram_username url with
        | none => rw [hu] at hv; simp at hv
        | some uname =>
          rw [hu] at hv
          cases hr : env.instaResult with
          | error e => rw [hr] at hv; simp at hv
          | ok posts =>
            rw [hr] at hv
            simp only at hv
            by_cases hne : scrape_instagram_with_instaloader maxv posts ≠ []
            · rw [if_pos hne] at hv
              obtain ⟨p, hp2, _, hveq⟩ := scrapeAux_mem maxv posts 0 v hv
              subst hveq
              apply mkVideoInsta_good
              rw [hr] at hg1
              exact (List.all_eq_true.mp hg1) p hp2
            · rw [if_neg hne] at hv
              simp at hv
      · rw [if_neg hia] at hv
        simp at hv
    · rw [if_neg hp] at hv
      cases hyi : env.ydlInfo with
      | none => rw [hyi] at hv; simp at hv
      | some entries =>
        rw [hyi] at hv
        simp only at hv
        by_cases hee : entries = []
        · rw [if_pos hee] at hv
          simp at hv
        · rw [if_neg hee] at hv
          by_cases hne : pfEntriesAux (detect_platform url) entries 0 ≠ []
          · rw [if_pos hne] at hv
            obtain ⟨e, j, hmem, hveq⟩ := pfEntriesAux_mem _ entries 0 v hv
            subst hveq
            apply mkVideoY_good
            rw [hyi] at hg2
            have := (List.all_eq_true.mp hg2) (some e) hmem
            simpa using this
          · rw [if_neg hne] at hv
            simp at hv

/-- C6, counterexample: `ProfileFetchThread.run` on a YouTube profile
whose single entry has a present-but-empty `title` produces one record —
and that record's title is empty, violating the invariant. -/
theorem collectors_invariant_counterexample :
    (pfRun pfEnvEmptyTitle "https://www.youtube.com/@c".toList 50).2.map Video.title
      = [[]] := by
  decide

/-- Witness for the amended C6 theorem: one well-formed YouTube entry
yields a record with nonempty id/title and a valid URL. -/
theorem collectors_invariant_amended_witness :
    goodPFEnv pfEnvGood = true
    ∧ ((mkVideoY Platform.youtube 0 yEntryGood).id ≠ []
        ∧ (mkVideoY Platform.youtube 0 yEntryGood).title ≠ []
        ∧ is_valid_url (mkVideoY Platform.youtube 0 yEntryGood).url = true) :=
  ⟨by decide,
    collectors_invariant_amended.2 pfEnvGood "https://www.youtube.com/@c".toList 50
      (mkVideoY Platform.youtube 0 yEntryGood) (by decide) (by decide)⟩
